import Mathlib

/-!
# mimir-go: request instrumentation

A shallow embedding of the URL normalisers of `httpclient/httpclient.go`
(`stripQueryAndUUIDs`, `stripQueryParameters`), of the error taxonomy of
`httputil/error.go`, of the request context of `context/context.go`, of the
outbound call path `client.Request` and of the middleware chain of `httputil`
(`Metrics`, `RequestID`, `Locale`, `Logger`, `HandleErrors`), followed by the
theorems that settle the properties stated about them.

Go strings that the code takes apart character by character (URLs) are lists
of characters; the separators and character classes the code looks for are all
ASCII, so bytes and characters split a string at the same places.
-/

namespace Mimir

/-! ## `strings.Split` and `strings.Join` with a one-character separator -/

/-- Puts a character in front of the first piece of a split. -/
def consHead (c : Char) : List (List Char) → List (List Char)
  | [] => [[c]]
  | h :: t => (c :: h) :: t

/-- Go `strings.Split(s, sep)` for a one-character `sep`: the pieces of `s`
between the occurrences of `sep`, always at least one piece. -/
def splitOn (sep : Char) : List Char → List (List Char)
  | [] => [[]]
  | c :: cs => if c = sep then [] :: splitOn sep cs else consHead c (splitOn sep cs)

/-- Go `strings.Join(parts, sep)` for a one-character `sep`. -/
def join (sep : Char) : List (List Char) → List Char
  | [] => []
  | [p] => p
  | p :: q :: ps => p ++ sep :: join sep (q :: ps)

/-! ## The UUID regular expression -/

/-- The character class `[a-fA-F0-9]`. -/
def isHex (c : Char) : Bool :=
  ('a' ≤ c && c ≤ 'f') || ('A' ≤ c && c ≤ 'F') || ('0' ≤ c && c ≤ '9')

/-- The one-character pattern `-`. -/
def isDash (c : Char) : Bool := c = '-'

/-- The pattern of `uuidRegexp`,
`[a-fA-F0-9]{8}-[a-fA-F0-9]{4}-[a-fA-F0-9]{4}-[a-fA-F0-9]{4}-[a-fA-F0-9]{12}`,
as the sequence of its 36 character classes. -/
def uuidRegexp : List (Char → Bool) :=
  List.replicate 8 isHex ++ [isDash] ++ List.replicate 4 isHex ++ [isDash] ++
  List.replicate 4 isHex ++ [isDash] ++ List.replicate 4 isHex ++ [isDash] ++
  List.replicate 12 isHex

/-- Whether the text starts with a match of a sequence of character classes. -/
def matchesAt : List (Char → Bool) → List Char → Bool
  | [], _ => true
  | _ :: _, [] => false
  | p :: ps, c :: cs => p c && matchesAt ps cs

/-- The placeholder `":id"` that replaces a UUID. -/
def idPlaceholder : List Char := [':', 'i', 'd']

/-- The scan of `uuidRegexp.ReplaceAllString(s, ":id")`. The pattern matches
only texts of 36 characters, so the leftmost non-overlapping matches are found
left to right: where the text starts with a match the placeholder is emitted
and the 36 matched characters are passed over (`skip` counts those still to
pass over), elsewhere the character is copied. -/
def replaceFrom : Nat → List Char → List Char
  | _, [] => []
  | skip + 1, _ :: cs => replaceFrom skip cs
  | 0, c :: cs =>
    if matchesAt uuidRegexp (c :: cs) then idPlaceholder ++ replaceFrom 35 cs
    else c :: replaceFrom 0 cs

/-- The Go expression `uuidRegexp.ReplaceAllString(s, ":id")`. -/
def replaceAllUUIDs (s : List Char) : List Char := replaceFrom 0 s

/-- Go `stripQueryAndUUIDs`: the text before the first `?`, with every UUID
replaced by `:id`. -/
def stripQueryAndUUIDs (url : List Char) : List Char :=
  let withoutQuery := (splitOn '?' url).headD []
  replaceAllUUIDs withoutQuery

/-- The body of the loop of `stripQueryParameters`: one `&`-separated part of
the query is split on `=`, its first piece is kept as the parameter name and
its value is replaced by `:values` when there are exactly two pieces and the
second one splits on `,` into more than one element, by `:value` otherwise. -/
def stripParameter (part : List Char) : List Char :=
  let paramAndValue := splitOn '=' part
  let param := paramAndValue.headD []
  let stripped :=
    if paramAndValue.length = 2 ∧ (splitOn ',' (paramAndValue.getD 1 [])).length > 1
    then ":values".toList else ":value".toList
  param ++ '=' :: stripped

/-- Go `stripQueryParameters`. -/
def stripQueryParameters (url : List Char) : List Char :=
  let split := splitOn '?' url
  let domainAndPath := split.headD []
  if split.length ≠ 2 then domainAndPath
  else
    let query := splitOn '&' (split.getD 1 [])
    let strippedQuery := query.map stripParameter
    domainAndPath ++ '?' :: join '&' strippedQuery

/-- The query part of the output of `stripQueryParameters`: the `&`-separated
parts of the query, each through the loop body, joined by `&` again. -/
def stripQuery (query : List Char) : List Char :=
  join '&' ((splitOn '&' query).map stripParameter)

/-- A query parameter as it is written in a URL: `key`, or `key=value`. -/
def renderParam : List Char × Option (List Char) → List Char
  | (key, none) => key
  | (key, some value) => key ++ '=' :: value

/-- A query parameter as it is to appear in a log: `key=:values` when it has a
value that contains `,`, and `key=:value` otherwise. -/
def redactedParam : List Char × Option (List Char) → List Char
  | (key, none) => key ++ "=:value".toList
  | (key, some value) =>
    if ',' ∈ value then key ++ "=:values".toList else key ++ "=:value".toList

/-- A text free of the separators `?`, `&` and `=`. -/
def separatorFree (s : List Char) : Prop := '?' ∉ s ∧ '&' ∉ s ∧ '=' ∉ s

instance (s : List Char) : Decidable (separatorFree s) := by
  unfold separatorFree; infer_instance

/-- The parameters `k1=v1`, ..., `kn=vn` of the keys and values given. -/
def keyValues (keys values : List (List Char)) : List (List Char) :=
  List.zipWith (fun k v => k ++ '=' :: v) keys values

/-- A canonical UUID in any letter case: 36 characters of the shape 8-4-4-4-12
hexadecimal digits. -/
def isUUID (s : List Char) : Bool := s.length == 36 && matchesAt uuidRegexp s

/-- A URL written out: segments joined by `/`, then `?` and a query when there
is one. -/
def urlOf (segments : List (List Char)) (query : Option (List Char)) : List Char :=
  join '/' segments ++ (match query with
    | none => []
    | some q => '?' :: q)

/-- What a path segment becomes in a metric label: `:id` for a UUID, itself
otherwise. -/
def labelSegment (s : List Char) : List Char := if isUUID s then idPlaceholder else s

/-- No occurrence of the UUID pattern in `s` is directly followed by 35
characters of the shape 7-4-4-4-12, the text that would make a UUID again
together with the `d` of the placeholder. -/
def UUIDsClear (s : List Char) : Prop :=
  ∀ t ∈ s.tails, matchesAt uuidRegexp t = true →
    matchesAt (uuidRegexp.drop 1) (t.drop 36) = false

instance (s : List Char) : Decidable (UUIDsClear s) := by
  unfold UUIDsClear; infer_instance

/-- The test of the loop body for `:values`, on one part of a query: the part
splits on `=` into exactly two pieces and the second one contains `,`. -/
def listValued (part : List Char) : Prop :=
  (splitOn '=' part).length = 2 ∧ ',' ∈ (splitOn '=' part).getD 1 []

instance (part : List Char) : Decidable (listValued part) := by
  unfold listValued; infer_instance

/-- The input has exactly one `?` and a part of its query is redacted to
`:values`. -/
def hasListValue (url : List Char) : Prop :=
  (splitOn '?' url).length = 2 ∧
    ∃ part ∈ splitOn '&' ((splitOn '?' url).getD 1 []), listValued part

instance (url : List Char) : Decidable (hasListValue url) := by
  unfold hasListValue; infer_instance

/-! ## The error taxonomy (`httputil/error.go`) -/

/-- Go `http.StatusText`: the reason phrase of a status code, empty for a code
that has none. -/
def statusText (code : Int) : String :=
  if code = 100 then "Continue"
  else if code = 101 then "Switching Protocols"
  else if code = 102 then "Processing"
  else if code = 103 then "Early Hints"
  else if code = 200 then "OK"
  else if code = 201 then "Created"
  else if code = 202 then "Accepted"
  else if code = 203 then "Non-Authoritative Information"
  else if code = 204 then "No Content"
  else if code = 205 then "Reset Content"
  else if code = 206 then "Partial Content"
  else if code = 207 then "Multi-Status"
  else if code = 208 then "Already Reported"
  else if code = 226 then "IM Used"
  else if code = 300 then "Multiple Choices"
  else if code = 301 then "Moved Permanently"
  else if code = 302 then "Found"
  else if code = 303 then "See Other"
  else if code = 304 then "Not Modified"
  else if code = 305 then "Use Proxy"
  else if code = 307 then "Temporary Redirect"
  else if code = 308 then "Permanent Redirect"
  else if code = 400 then "Bad Request"
  else if code = 401 then "Unauthorized"
  else if code = 402 then "Payment Required"
  else if code = 403 then "Forbidden"
  else if code = 404 then "Not Found"
  else if code = 405 then "Method Not Allowed"
  else if code = 406 then "Not Acceptable"
  else if code = 407 then "Proxy Authentication Required"
  else if code = 408 then "Request Timeout"
  else if code = 409 then "Conflict"
  else if code = 410 then "Gone"
  else if code = 411 then "Length Required"
  else if code = 412 then "Precondition Failed"
  else if code = 413 then "Request Entity Too Large"
  else if code = 414 then "Request URI Too Long"
  else if code = 415 then "Unsupported Media Type"
  else if code = 416 then "Requested Range Not Satisfiable"
  else if code = 417 then "Expectation Failed"
  else if code = 418 then "I\x27m a teapot"
  else if code = 421 then "Misdirected Request"
  else if code = 422 then "Unprocessable Entity"
  else if code = 423 then "Locked"
  else if code = 424 then "Failed Dependency"
  else if code = 425 then "Too Early"
  else if code = 426 then "Upgrade Required"
  else if code = 428 then "Precondition Required"
  else if code = 429 then "Too Many Requests"
  else if code = 431 then "Request Header Fields Too Large"
  else if code = 451 then "Unavailable For Legal Reasons"
  else if code = 500 then "Internal Server Error"
  else if code = 501 then "Not Implemented"
  else if code = 502 then "Bad Gateway"
  else if code = 503 then "Service Unavailable"
  else if code = 504 then "Gateway Timeout"
  else if code = 505 then "HTTP Version Not Supported"
  else if code = 506 then "Variant Also Negotiates"
  else if code = 507 then "Insufficient Storage"
  else if code = 508 then "Loop Detected"
  else if code = 510 then "Not Extended"
  else if code = 511 then "Network Authentication Required"
  else ""

/-- Go `strconv.Itoa` and the verb `%d`: an integer in decimal. -/
def itoa (n : Int) : String := toString n

/-- The type `httputil.Error`. -/
structure Error where
  ID : String
  Message : String
  StatusCode : Int
  deriving DecidableEq, Repr

/-- A Go value of type `error` that is not nil: a taxonomy `*Error`, or an error
of another type, of which only the text returned by `Error()` matters. -/
inductive GoError where
  | taxonomy (e : Error)
  | other (description : String)
  deriving DecidableEq, Repr

/-- The method `Error()`; for `*Error` it is
`fmt.Sprintf("Error(id=%s, statusCode=%d message=[%s])", ...)`. -/
def GoError.Error : GoError → String
  | .taxonomy e =>
    "Error(id=" ++ e.ID ++ ", statusCode=" ++ itoa e.StatusCode ++ " message=[" ++
      e.Message ++ "])"
  | .other description => description

/-- The verb `%s` applied to a value of type `error`, which may be nil. -/
def fmtError : Option GoError → String
  | none => "%!s(<nil>)"
  | some e => e.Error

/-- Go `NewError`. The id minted by `id.New()` (a random UUID) is the argument
`newID`. -/
def NewError (newID : String) (message : String) (status : Int) : Error :=
  let errMsg := if message = "" then statusText status else message
  { ID := newID, Message := errMsg, StatusCode := status }

/-- Go `BadRequest`, with `http.StatusBadRequest`. -/
def BadRequest (newID message : String) : Error := NewError newID message 400

/-- Go `Unauthorized`, with `http.StatusUnauthorized`. -/
def Unauthorized (newID message : String) : Error := NewError newID message 401

/-- Go `Forbidden`, with `http.StatusForbidden`. -/
def Forbidden (newID message : String) : Error := NewError newID message 403

/-- Go `NotFound`, with `http.StatusNotFound`. -/
def NotFound (newID message : String) : Error := NewError newID message 404

/-- Go `InternalServerError`, with `http.StatusInternalServerError`. -/
def InternalServerError (newID message : String) : Error := NewError newID message 500

/-- Go `BadGateway`, with `http.StatusBadGateway`. -/
def BadGateway (newID message : String) : Error := NewError newID message 502

/-- The type `httputil.ErrorResponse`. -/
structure ErrorResponse where
  ErrorID : String
  Message : String
  StatusCode : Int
  Path : String
  RequestID : String
  deriving DecidableEq, Repr

/-- A Go value of type `interface{}` kept under a key: a string, or a value of
another type. -/
inductive Value where
  | str (s : String)
  | notString (shown : String)
  deriving DecidableEq, Repr

/-- The header key `httputil.RequestIDHeader`. -/
def RequestIDHeader : String := "X-Request-ID"

/-- The header key `httputil.AcceptLanguage`. -/
def AcceptLanguage : String := "Accept-Language"

/-- The parts of a `gin.Context` that this repository reads and writes: the
request (method, `URL.Path`, headers), the route pattern `FullPath()`, the
values kept by `Set`, the response headers and status, and the errors raised. -/
structure GinContext where
  requestMethod : String
  requestPath : String
  requestHeader : List (String × String)
  fullPath : String
  keys : List (String × Value)
  responseHeader : List (String × String)
  status : Int
  errors : List GoError
  deriving Repr

/-- The gin method `GetString`: the value kept under the key when there is one
and it is a string, the empty string otherwise. -/
def GinContext.GetString (c : GinContext) (key : String) : String :=
  match c.keys.lookup key with
  | some (.str s) => s
  | _ => ""

/-- Go `GetRequestID`. -/
def GetRequestID (c : GinContext) : String := c.GetString RequestIDHeader

/-- Go `NewErrorResponse`, for an error that is not nil. The id minted by
`id.New()` inside `InternalServerError` is the argument `newID`. -/
def NewErrorResponse (newID : String) (c : GinContext) (err : GoError) : ErrorResponse :=
  let httpError : Error :=
    match err with
    | .taxonomy e => e
    | .other _ => InternalServerError newID err.Error
  { ErrorID := httpError.ID
    Message := httpError.Message
    StatusCode := httpError.StatusCode
    Path := c.requestPath
    RequestID := GetRequestID c }

/-! ## The request context (`context/context.go`) -/

/-- The key under which a value is attached to a Go `context.Context`:
`ContextIDKey` of this repository, or a key of another package. -/
inductive ValueKey where
  | ContextIDKey
  | foreign (name : String)
  deriving DecidableEq, Repr

/-- A Go `context.Context` as a carrier of values: the values attached by
`context.WithValue`, the innermost first; `context.Background()` is the empty
one. Deadlines and cancellation are not modelled. -/
abbrev Scope := List (ValueKey × Value)

/-- Go `context.WithValue`. -/
def WithValue (parent : Scope) (key : ValueKey) (val : Value) : Scope := (key, val) :: parent

/-- The method `Value` of a Go `context.Context`; `none` is nil. -/
def Scope.Value (s : Scope) (key : ValueKey) : Option Value := s.lookup key

/-- The type `context.Context` of this repository; `scope` is the embedded Go
`context.Context`. -/
structure Context where
  ID : String
  ClientID : String
  Language : String
  AuthToken : String
  scope : Scope
  deriving DecidableEq, Repr

/-- Go `New` of package `context`. -/
def New (parent : Scope) (id clientID language authToken : String) : Context :=
  { ID := id
    ClientID := clientID
    Language := language
    AuthToken := authToken
    scope := WithValue parent .ContextIDKey (.str id) }

/-- Go `NewBackground`. The id minted by `id.New()` is the argument `newID`. -/
def NewBackground (newID clientID language authToken : String) : Context :=
  New [] newID clientID language authToken

/-! ## The outbound call path (`httpclient/httpclient.go`) -/

/-- The type `remoteError`. -/
structure remoteError where
  Code : Int
  Message : String
  deriving DecidableEq, Repr

/-- An `http.Response` as far as the client looks at it. -/
structure Response where
  StatusCode : Int
  Body : String
  deriving DecidableEq, Repr

/-- The result of `c.httpClient.Do(req)`. The Go library returns a response
that is not nil whenever the error is nil; with an error a response may or may
not come along. -/
inductive DoResult where
  | ok (res : Response)
  | failed (res : Option Response) (err : GoError)
  deriving DecidableEq, Repr

/-- The response returned by `Do`, nil or not. -/
def DoResult.res : DoResult → Option Response
  | .ok res => some res
  | .failed res _ => res

/-- The error returned by `Do`, nil or not. -/
def DoResult.err : DoResult → Option GoError
  | .ok _ => none
  | .failed _ err => some err

/-- The fields of `client` that decide what is recorded and returned. -/
structure client where
  baseURL : List Char
  name : String
  deriving DecidableEq, Repr

/-- An `http.Request` as built by `createRequest`. -/
structure HttpRequest where
  method : String
  url : List Char
  body : Option String
  header : List (String × String)
  deriving DecidableEq, Repr

/-- The method `Set` of `http.Header`: the value replaces what was kept under
the key. The keys are taken as written. -/
def headerSet (h : List (String × String)) (key value : String) : List (String × String) :=
  h.filter (fun kv => kv.1 != key) ++ [(key, value)]

/-- The method `Get` of `http.Header`; nothing under the key gives `none`. -/
def headerGet (h : List (String × String)) (key : String) : Option String := h.lookup key

/-- What lies outside the program in one outbound call: the result of
`json.Marshal` on a body, the check of `http.NewRequest` on method and URL
(`none` when it accepts them), the result of `Do`, the result of
`json.NewDecoder(res.Body).Decode(&remoteErr)` (the `remoteError` as left by the
decoder, and the parse error or `none`), the reading of the timer in
milliseconds and the id that `id.New()` mints. -/
structure World (β : Type) where
  marshal : β → Except GoError String
  newRequest : String → List Char → Option GoError
  send : HttpRequest → DoResult
  decode : String → remoteError × Option GoError
  latency : Rat
  newID : String

/-- Go `createBody`. -/
def createBody {β : Type} (w : World β) (body : Option β) : Except GoError (Option String) :=
  match body with
  | none => .ok none
  | some b =>
    match w.marshal b with
    | .error err => .error err
    | .ok bytesBody => .ok (some bytesBody)

/-- Go `client.createRequest`, without its log entries. -/
def client.createRequest {β : Type} (w : World β) (c : client) (ctx : Context)
    (path : List Char) (method : String) (body : Option β) : Except GoError HttpRequest :=
  let fullURL := c.baseURL ++ path
  match createBody w body with
  | .error err => .error err
  | .ok bodyReader =>
    match w.newRequest method fullURL with
    | some err => .error err
    | none =>
      let h0 : List (String × String) := []
      let h1 := if ctx.AuthToken ≠ "" then headerSet h0 "Authorization" ("Bearer " ++ ctx.AuthToken)
        else h0
      let h2 := headerSet h1 "X-ClientID" ctx.ClientID
      let h3 := headerSet h2 RequestIDHeader ctx.ID
      let h4 := headerSet h3 AcceptLanguage ctx.Language
      let h5 := headerSet h4 "Accept" "application/json"
      let h6 := headerSet h5 "Content-Type" "application/json"
      .ok { method := method, url := fullURL, body := bodyReader, header := h6 }

/-- Go `client.wrapError`, without its log entry. The second test of
`res == nil` stands where the code has it, after the decoding. -/
def client.wrapError {β : Type} (w : World β) (_c : client) (ctx : Context)
    (res : Option Response) (err : Option GoError) : Error :=
  match res with
  | none =>
    let message := "Downstream request failed with no response. requestId=[" ++ ctx.ID ++
      "] err=[" ++ fmtError err ++ "]"
    BadGateway w.newID message
  | some r =>
    let remoteErr := (w.decode r.Body).1
    if res = none then
      let message := "Downstream request failed could not parse error. requestId=[" ++
        ctx.ID ++ "] code=[" ++ itoa r.StatusCode ++ "] err=[" ++ fmtError err ++ "]"
      BadGateway w.newID message
    else
      let message := "Downstream failed. requestId=[" ++ ctx.ID ++ "] status=[" ++
        itoa r.StatusCode ++ "] code=[" ++ itoa remoteErr.Code ++ "] message=[" ++
        remoteErr.Message ++ "]"
      BadGateway w.newID message

/-- The labels `endpoint`, `method`, `status` of a sample. -/
structure Labels where
  endpoint : List Char
  method : String
  status : String
  deriving DecidableEq, Repr

/-- The two instruments of the client as logs of samples: `rpcsTotal` gets an
entry for every `Inc()`, `rpcLatency` one for every `Observe(latency)`. -/
structure Metrics where
  rpcsTotal : List Labels
  rpcLatency : List (Labels × Rat)
  deriving DecidableEq, Repr

/-- Go `client.recordMetrics`. -/
def client.recordMetrics (c : client) (m : Metrics) (latency : Rat) (path : List Char)
    (method : String) (statusCode : Int) : Metrics :=
  let endpoint := stripQueryAndUUIDs (c.baseURL ++ path)
  let status := itoa statusCode
  { rpcsTotal := m.rpcsTotal ++ [⟨endpoint, method, status⟩]
    rpcLatency := m.rpcLatency ++ [(⟨endpoint, method, status⟩, latency)] }

/-- Go `client.recordMetricsOnError`, with `http.StatusServiceUnavailable`. -/
def client.recordMetricsOnError (c : client) (m : Metrics) (latency : Rat)
    (path : List Char) (method : String) (res : Option Response) : Metrics :=
  let statusCode : Int :=
    match res with
    | some r => r.StatusCode
    | none => 503
  c.recordMetrics m latency path method statusCode

/-- Go `client.Request`, without the latency warning: the response and error
returned, and the instruments afterwards. The test
`err != nil || (res != nil && res.StatusCode >= 300)` is taken on the two shapes
of the result of `Do`. -/
def client.Request {β : Type} (w : World β) (c : client) (m : Metrics) (ctx : Context)
    (path : List Char) (method : String) (body : Option β) :
    (Option Response × Option GoError) × Metrics :=
  match c.createRequest w ctx path method body with
  | .error err => ((none, some err), m)
  | .ok req =>
    match w.send req with
    | .failed res err =>
      let m' := c.recordMetricsOnError m w.latency path method res
      ((none, some (.taxonomy (c.wrapError w ctx res (some err)))), m')
    | .ok res =>
      if res.StatusCode ≥ 300 then
        let m' := c.recordMetricsOnError m w.latency path method (some res)
        ((none, some (.taxonomy (c.wrapError w ctx (some res) none))), m')
      else
        let m' := c.recordMetrics m w.latency path method res.StatusCode
        ((some res, none), m')

/-! ## A concrete call, for the instances below -/

/-- A world in which every body marshals as `marshal` says, every method and URL
is accepted, `Do` returns `send`, no response body decodes, the timer reads
12 ms and the id minted is `f0496797-0381-4b43-9821-313242a4d5f9`. -/
def exampleWorld (marshal : Except GoError String) (send : DoResult) : World Unit :=
  { marshal := fun _ => marshal
    newRequest := fun _ _ => none
    send := fun _ => send
    decode := fun _ => (⟨0, ""⟩, some (.other "invalid character"))
    latency := 12
    newID := "f0496797-0381-4b43-9821-313242a4d5f9" }

/-- A client of the service at `http://stocks`. -/
def exampleClient : client := { baseURL := "http://stocks".toList, name := "stocks" }

/-- A request context with the request id `req-1`. -/
def exampleContext : Context := New [] "req-1" "client-1" "sv" "token"

/-- Instruments without samples. -/
def noSamples : Metrics := { rpcsTotal := [], rpcLatency := [] }

/-! ## Minted ids (`id/id.go`) -/

/-- Modelled from the spec: what `uuid.New().String()` of the library
`github.com/google/uuid`, which is not among the sources, can return and
`id.New()` with it: a syntactically valid identifier, 36 characters of the shape
8-4-4-4-12 hexadecimal digits. -/
def Minted (id : String) : Prop := isUUID id.toList = true

instance (id : String) : Decidable (Minted id) := by
  unfold Minted; infer_instance

/-! ## The middleware chain (`httputil`) -/

/-- A field of a log entry, as made by `zap.String`, `zap.Int` and
`zap.Duration` (in nanoseconds). -/
inductive Field where
  | string (key val : String)
  | int (key : String) (val : Int)
  | duration (key : String) (nanoseconds : Int)
  deriving DecidableEq, Repr

/-- An entry written by a zap logger: `level` is `info` for `Info` and `error`
for `Error`. -/
structure LogEntry where
  level : String
  message : String
  fields : List Field
  deriving DecidableEq, Repr

/-- What a request touches on the server: its `gin.Context`, whether the chain
was aborted, the body written as JSON, the loggers `requestLog` and `errLog` as
lists of entries and the instruments `requestsTotal` and `requestsLatency` as
lists of samples. -/
structure Server where
  c : GinContext
  aborted : Bool
  body : Option ErrorResponse
  requestLog : List LogEntry
  errLog : List LogEntry
  requestsTotal : List Labels
  requestsLatency : List (Labels × Rat)
  deriving Repr

/-- A `gin.HandlerFunc`. In a middleware the handlers that follow it, run by
`c.Next()`, are the argument `next`. -/
abbrev HandlerFunc := Server → Server

/-- The constant `metricsPath`. -/
def metricsPath : String := "/metrics"

/-- The constant `DefaltLocale`. -/
def DefaltLocale : String := "sv"

/-- The bytes that Go accepts in the name of a header (`validHeaderFieldByte`):
letters, digits and the punctuation of an HTTP token. -/
def validHeaderFieldByte (c : Char) : Bool :=
  c.isAlphanum || "!#$%&\x27*+-.^_\x60|~".toList.contains c

/-- The letter case of a canonical header name: upper case for the first letter
and for a letter after `-`, lower case for every other letter. `upper` tells
whether the next character starts a word. -/
def canonicalCase (upper : Bool) : List Char → List Char
  | [] => []
  | c :: cs =>
    (if upper then c.toUpper else c.toLower) :: canonicalCase (c == '-') cs

/-- Go `textproto.CanonicalMIMEHeaderKey`, under which `net/http` keeps and
looks up header names: a name made of valid bytes only is put in canonical
letter case (`x-request-id` and `X-Request-ID` both become `X-Request-Id`), any
other name is left as it is. -/
def CanonicalMIMEHeaderKey (s : String) : String :=
  if s.toList.all validHeaderFieldByte then String.mk (canonicalCase true s.toList) else s

/-- The gin method `GetHeader`, `c.Request.Header.Get(key)`. The server keeps the
headers it received under their canonical names and `Get` looks the canonical
name of the key up, so, with `requestHeader` the headers in the order and
spelling in which they were sent, the result is the value of the first header
whose name has the canonical form of the key, and the empty string when the
request has no such header. -/
def GinContext.GetHeader (c : GinContext) (key : String) : String :=
  match c.requestHeader.find?
      (fun kv => CanonicalMIMEHeaderKey kv.1 == CanonicalMIMEHeaderKey key) with
  | some kv => kv.2
  | none => ""

/-- The gin method `Set`: keeps the value under the key. -/
def GinContext.Set (c : GinContext) (key value : String) : GinContext :=
  { c with keys := (key, .str value) :: c.keys.filter (fun kv => kv.1 != key) }

/-- The gin method `Header`: sets the response header, or removes it when the
value is empty. -/
def GinContext.Header (c : GinContext) (key value : String) : GinContext :=
  if value = "" then
    { c with responseHeader := c.responseHeader.filter (fun kv => kv.1 != key) }
  else { c with responseHeader := headerSet c.responseHeader key value }

/-- Go `Metrics`. The reading of the timer at `stop()` is the argument
`latency`. -/
def httputil.Metrics (latency : Rat) (next : HandlerFunc) : HandlerFunc := fun s =>
  if s.c.requestPath = metricsPath then next s
  else
    let endpoint := s.c.fullPath
    let s1 := next s
    let status := itoa s1.c.status
    let method := s1.c.requestMethod
    { s1 with
      requestsTotal := s1.requestsTotal ++ [⟨endpoint.toList, method, status⟩]
      requestsLatency := s1.requestsLatency ++ [(⟨endpoint.toList, method, status⟩, latency)] }

/-- Go `RequestID`. The id minted by `id.New()` is the argument `newID`. -/
def httputil.RequestID (newID : String) (next : HandlerFunc) : HandlerFunc := fun s =>
  let requestID := s.c.GetHeader RequestIDHeader
  let requestID := if requestID = "" then newID else requestID
  next { s with c := (s.c.Set RequestIDHeader requestID).Header RequestIDHeader requestID }

/-- Go `Locale`. -/
def httputil.Locale (next : HandlerFunc) : HandlerFunc := fun s =>
  let lang := s.c.GetHeader AcceptLanguage
  let lang := if lang = "" then DefaltLocale else lang
  next { s with c := s.c.Set AcceptLanguage lang }

/-- The first entry of `Logger`, written before `c.Next()`. -/
def incomingEntry (c : GinContext) : LogEntry :=
  { level := "info"
    message := "Incomming request: " ++ c.requestMethod ++ " " ++ c.requestPath
    fields := [.string "requestId" (GetRequestID c)] }

/-- The second entry of `Logger`, written after `c.Next()`: `path` and
`requestID` are those read before it, method and status are read after it. -/
def outgoingEntry (path requestID : String) (c : GinContext) (latency : Int) : LogEntry :=
  { level := "info"
    message := "Outgoing request: " ++ c.requestMethod ++ " " ++ path
    fields := [.int "status" c.status, .string "requestId" requestID,
      .duration "latency" latency] }

/-- Go `Logger`. The time between `start` and `end` is the argument `latency`. -/
def httputil.Logger (latency : Int) (next : HandlerFunc) : HandlerFunc := fun s =>
  let path := s.c.requestPath
  let requestID := GetRequestID s.c
  let s1 := next { s with requestLog := s.requestLog ++ [incomingEntry s.c] }
  { s1 with requestLog := s1.requestLog ++ [outgoingEntry path requestID s1.c latency] }

/-- Go `getFirstError`; `none` is nil. -/
def getFirstError (c : GinContext) : Option GoError :=
  match c.errors with
  | [] => none
  | err :: _ => some err

/-- The entry that `logError` writes. -/
def errorEntry (err : ErrorResponse) : LogEntry :=
  { level := "error"
    message := err.Message
    fields := [.int "status" err.StatusCode, .string "errorId" err.ErrorID,
      .string "requestId" err.RequestID] }

/-- Go `logError`. -/
def logError (s : Server) (err : ErrorResponse) : Server :=
  if err.StatusCode < 500 then s
  else { s with errLog := s.errLog ++ [errorEntry err] }

/-- Whether gin writes a body with a status: not with 1xx, 204 and 304. -/
def bodyAllowedForStatus (status : Int) : Bool :=
  !((100 ≤ status && status ≤ 199) || status = 204 || status = 304)

/-- Go `sendError`, that is gin `AbortWithStatusJSON`: the chain is aborted, the
status is set and the error response is written as the body. -/
def sendError (s : Server) (err : ErrorResponse) : Server :=
  { s with
    aborted := true
    c := { s.c with status := if err.StatusCode > 0 then err.StatusCode else s.c.status }
    body := if bodyAllowedForStatus err.StatusCode then some err else s.body }

/-- Go `HandleErrors`. The id minted by `id.New()` inside `NewErrorResponse` is
the argument `errorID`. -/
def httputil.HandleErrors (errorID : String) (next : HandlerFunc) : HandlerFunc := fun s =>
  let s1 := next s
  match getFirstError s1.c with
  | none => s1
  | some err =>
    let httpError := NewErrorResponse errorID s1.c err
    sendError (logError s1 httpError) httpError

/-- What lies outside the program while one request is served: the readings of
the timers of `Metrics` and `Logger` and the ids minted in `RequestID` and in
`NewErrorResponse`. -/
structure ServerWorld where
  metricsLatency : Rat
  loggerLatency : Int
  requestID : String
  errorID : String

/-- The chain that `NewRouter` installs in front of a route handler, in its
order; `gin.Recovery()`, which only acts on a panic, is left out. -/
def routerChain (w : ServerWorld) (handler : HandlerFunc) : HandlerFunc :=
  httputil.Metrics w.metricsLatency
    (httputil.RequestID w.requestID
      (httputil.Locale
        (httputil.Logger w.loggerLatency
          (httputil.HandleErrors w.errorID handler))))

/-- The handler of the route `/metrics` as far as the state kept here goes: it
serves the exposition of the instruments with status 200 and changes neither
the instruments nor the logs. -/
def prometheusHandler : HandlerFunc := fun s => { s with c := { s.c with status := 200 } }

/-- A scrape: `GET /metrics` without headers, on a server that has recorded and
logged nothing yet. -/
def exampleScrape : Server :=
  { c := ⟨"GET", "/metrics", [], "/metrics", [], [], 200, []⟩
    aborted := false
    body := none
    requestLog := []
    errLog := []
    requestsTotal := []
    requestsLatency := [] }

/-- The readings and ids of one request. -/
def exampleServerWorld : ServerWorld :=
  { metricsLatency := 3
    loggerLatency := 2000000
    requestID := "f0496797-0381-4b43-9821-313242a4d5f9"
    errorID := "eff72a73-2a2c-41eb-9a8c-ea7f337c84d2" }

/-! ## Splitting and joining -/

theorem splitOn_ne_nil (sep : Char) (l : List Char) : splitOn sep l ≠ [] := by
  cases l with
  | nil => simp [splitOn]
  | cons c cs =>
    simp only [splitOn]
    split
    · simp
    · cases splitOn sep cs <;> simp [consHead]

theorem splitOn_of_not_mem {sep : Char} {l : List Char} (h : sep ∉ l) :
    splitOn sep l = [l] := by
  induction l with
  | nil => rfl
  | cons c cs ih =>
    have hc : c ≠ sep := fun e => h (by simp [e])
    have hcs : sep ∉ cs := fun e => h (by simp [e])
    simp [splitOn, hc, ih hcs, consHead]

theorem splitOn_append_cons (sep : Char) (a b : List Char) :
    splitOn sep (a ++ sep :: b) = splitOn sep a ++ splitOn sep b := by
  induction a with
  | nil => simp [splitOn]
  | cons c cs ih =>
    by_cases hc : c = sep
    · simp [splitOn, hc, ih]
    · have h1 : splitOn sep (c :: (cs ++ sep :: b)) =
          consHead c (splitOn sep (cs ++ sep :: b)) := by simp [splitOn, hc]
      have h2 : splitOn sep (c :: cs) = consHead c (splitOn sep cs) := by
        simp [splitOn, hc]
      rw [List.cons_append, h1, h2, ih]
      cases h : splitOn sep cs with
      | nil => exact absurd h (splitOn_ne_nil sep cs)
      | cons x xs => rfl

theorem sep_not_mem_head_splitOn (sep : Char) (l : List Char) :
    sep ∉ (splitOn sep l).headD [] := by
  induction l with
  | nil => simp [splitOn]
  | cons c cs ih =>
    by_cases hc : c = sep
    · simp [splitOn, hc]
    · simp only [splitOn, hc, if_false]
      cases h : splitOn sep cs with
      | nil => exact absurd h (splitOn_ne_nil sep cs)
      | cons x xs =>
        rw [h] at ih
        simp only [consHead, List.headD_cons, List.mem_cons, not_or]
        exact ⟨fun e => hc e.symm, ih⟩

/-! ## Matching and replacing -/

theorem matchesAt_append (pat : List (Char → Bool)) (l r : List Char)
    (h : matchesAt pat l = true) : matchesAt pat (l ++ r) = true := by
  induction pat generalizing l with
  | nil => simp [matchesAt]
  | cons p ps ih =>
    cases l with
    | nil => simp [matchesAt] at h
    | cons c cs =>
      simp only [matchesAt, Bool.and_eq_true, List.cons_append] at h ⊢
      exact ⟨h.1, ih cs h.2⟩

theorem length_le_of_matchesAt (pat : List (Char → Bool)) (l : List Char)
    (h : matchesAt pat l = true) : pat.length ≤ l.length := by
  induction pat generalizing l with
  | nil => simp
  | cons p ps ih =>
    cases l with
    | nil => simp [matchesAt] at h
    | cons c cs =>
      simp only [matchesAt, Bool.and_eq_true] at h
      simpa using ih cs h.2

theorem replaceFrom_skip (k : Nat) (l : List Char) :
    replaceFrom k l = replaceFrom 0 (l.drop k) := by
  induction k generalizing l with
  | zero => simp
  | succ k ih =>
    cases l with
    | nil => simp [replaceFrom]
    | cons c cs => simp [replaceFrom, ih]

/-- The scan, one step at a time: at a match the placeholder replaces the 36
matched characters, elsewhere the first character is copied. -/
theorem replaceAllUUIDs_cons (c : Char) (cs : List Char) :
    replaceAllUUIDs (c :: cs) =
      if matchesAt uuidRegexp (c :: cs) then
        idPlaceholder ++ replaceAllUUIDs ((c :: cs).drop 36)
      else c :: replaceAllUUIDs cs := by
  simp only [replaceAllUUIDs, replaceFrom, List.drop_succ_cons]
  rw [replaceFrom_skip 35 cs]

theorem mem_replaceFrom (k : Nat) (l : List Char) (x : Char)
    (h : x ∈ replaceFrom k l) : x ∈ l ∨ x ∈ idPlaceholder := by
  induction l generalizing k with
  | nil => simp [replaceFrom] at h
  | cons c cs ih =>
    cases k with
    | succ k =>
      simp only [replaceFrom] at h
      rcases ih k h with h | h
      · exact Or.inl (List.mem_cons_of_mem _ h)
      · exact Or.inr h
    | zero =>
      simp only [replaceFrom] at h
      split at h
      · rcases List.mem_append.1 h with h | h
        · exact Or.inr h
        · rcases ih 35 h with h | h
          · exact Or.inl (List.mem_cons_of_mem _ h)
          · exact Or.inr h
      · rcases List.mem_cons.1 h with h | h
        · exact Or.inl (by simp [h])
        · rcases ih 0 h with h | h
          · exact Or.inl (List.mem_cons_of_mem _ h)
          · exact Or.inr h

/-- A pattern none of whose classes accepts `:` matches the output of the scan
only where it matches the input. -/
theorem matchesAt_of_matchesAt_replace (pat : List (Char → Bool))
    (hpat : ∀ p ∈ pat, p ':' = false) (l : List Char)
    (h : matchesAt pat (replaceAllUUIDs l) = true) : matchesAt pat l = true := by
  induction l generalizing pat with
  | nil => simpa [replaceAllUUIDs, replaceFrom] using h
  | cons c cs ih =>
    cases pat with
    | nil => simp [matchesAt]
    | cons p ps =>
      rw [replaceAllUUIDs_cons] at h
      split at h
      · simp [idPlaceholder, matchesAt, hpat p (by simp)] at h
      · simp only [matchesAt, Bool.and_eq_true] at h ⊢
        exact ⟨h.1, ih ps (fun q hq => hpat q (List.mem_cons_of_mem _ hq)) h.2⟩

theorem uuidRegexp_rejects_colon : ∀ p ∈ uuidRegexp, p ':' = false := by
  decide

theorem uuidRegexp_tail_rejects_colon : ∀ p ∈ uuidRegexp.drop 1, p ':' = false := by
  decide

theorem replaceAllUUIDs_of_no_match (o : List Char)
    (h : ∀ t ∈ o.tails, matchesAt uuidRegexp t = false) : replaceAllUUIDs o = o := by
  induction o with
  | nil => rfl
  | cons c cs ih =>
    have h0 : matchesAt uuidRegexp (c :: cs) = false := h _ (by simp)
    rw [replaceAllUUIDs_cons, h0]
    simp only [Bool.false_eq_true, if_false, List.cons.injEq, true_and]
    exact ih fun t ht => h t (by simp [ht])

theorem UUIDsClear_of_suffix {s t : List Char} (hs : UUIDsClear s) (ht : t <:+ s) :
    UUIDsClear t := by
  intro u hu
  exact hs u ((List.mem_tails u s).2 (((List.mem_tails u t).1 hu).trans ht))

/-- Under `UUIDsClear` the output of the scan contains no UUID. -/
theorem no_match_replaceAllUUIDs (n : Nat) (s : List Char) (hn : s.length ≤ n)
    (hs : UUIDsClear s) : ∀ t ∈ (replaceAllUUIDs s).tails, matchesAt uuidRegexp t = false := by
  induction n generalizing s with
  | zero =>
    have : s = [] := List.length_eq_zero.1 (Nat.le_zero.1 hn)
    subst this
    decide
  | succ n ih =>
    cases s with
    | nil => decide
    | cons c cs =>
      have hhead : matchesAt uuidRegexp (replaceAllUUIDs (c :: cs)) = false := by
        by_cases hm : matchesAt uuidRegexp (c :: cs) = true
        · rw [replaceAllUUIDs_cons, hm]; rfl
        · cases h : matchesAt uuidRegexp (replaceAllUUIDs (c :: cs)) with
          | false => rfl
          | true =>
            exact absurd (matchesAt_of_matchesAt_replace _ uuidRegexp_rejects_colon _ h) hm
      intro t ht
      by_cases hm : matchesAt uuidRegexp (c :: cs) = true
      · have hlen : 36 ≤ (c :: cs).length := length_le_of_matchesAt _ _ hm
        have hrest : ∀ u ∈ (replaceAllUUIDs ((c :: cs).drop 36)).tails,
            matchesAt uuidRegexp u = false :=
          ih _ (by simp only [List.length_drop, List.length_cons] at hn hlen ⊢; omega)
            (UUIDsClear_of_suffix hs (List.drop_suffix _ _))
        have hout : replaceAllUUIDs (c :: cs) =
            ':' :: 'i' :: 'd' :: replaceAllUUIDs ((c :: cs).drop 36) := by
          rw [replaceAllUUIDs_cons, hm]; rfl
        rw [hout] at ht
        simp only [List.tails, List.mem_cons] at ht
        rcases ht with ht | ht | ht | ht
        · subst ht; rfl
        · subst ht; rfl
        · subst ht
          cases h : matchesAt uuidRegexp ('d' :: replaceAllUUIDs ((c :: cs).drop 36)) with
          | false => rfl
          | true =>
            have h1 : matchesAt (uuidRegexp.drop 1)
                (replaceAllUUIDs ((c :: cs).drop 36)) = true := by
              simp [uuidRegexp, matchesAt] at h ⊢
              exact h.2
            have h2 := matchesAt_of_matchesAt_replace _ uuidRegexp_tail_rejects_colon _ h1
            have h3 := hs (c :: cs) (by simp) hm
            rw [h2] at h3
            exact absurd h3 (by decide)
        · exact hrest t ht
      · have hm0 : matchesAt uuidRegexp (c :: cs) = false := by simpa using hm
        rw [replaceAllUUIDs_cons, hm0] at ht hhead
        simp only [Bool.false_eq_true, if_false, List.tails, List.mem_cons] at ht hhead
        rcases ht with ht | ht
        · subst ht; exact hhead
        · exact ih cs (by simpa using hn)
            (UUIDsClear_of_suffix hs (List.suffix_cons c cs)) t ht

theorem not_mem_replaceAllUUIDs {x : Char} {l : List Char} (hx : x ∉ idPlaceholder)
    (h : x ∉ l) : x ∉ replaceAllUUIDs l := fun hm =>
  (mem_replaceFrom 0 l x hm).elim h hx

/-! ## The tables of `httpclient_test.go` -/

set_option maxRecDepth 100000 in
/-- The cases of `TestStripQueryParameters`. -/
theorem TestStripQueryParameters :
    stripQueryParameters "http://interviewer:8080/v1/things?onlySome=1".toList =
      "http://interviewer:8080/v1/things?onlySome=:value".toList ∧
    stripQueryParameters "http://interviewer:8080/v1/things?onlySome=1&other=text-val".toList =
      "http://interviewer:8080/v1/things?onlySome=:value&other=:value".toList ∧
    stripQueryParameters
      "http://interviewer:8080/v1/things?onlySome=1&other=text-val&list=one,two,three".toList =
      "http://interviewer:8080/v1/things?onlySome=:value&other=:value&list=:values".toList ∧
    stripQueryParameters "http://interviewer:8080/v1/things".toList =
      "http://interviewer:8080/v1/things".toList ∧
    stripQueryParameters "".toList = "".toList ∧
    stripQueryParameters
      "http://interviewer:8080/v1/things?onlySome=1&other=text-val&list".toList =
      "http://interviewer:8080/v1/things?onlySome=:value&other=:value&list=:value".toList ∧
    stripQueryParameters
      "/v1/things?apiKey=secret-key&other=text-val&list=one,two,three".toList =
      "/v1/things?apiKey=:value&other=:value&list=:values".toList ∧
    stripQueryParameters "?apiKey=secret-key&other=text-val&list=one,two,three".toList =
      "?apiKey=:value&other=:value&list=:values".toList := by
  refine ⟨?_, ?_, ?_, ?_, ?_, ?_, ?_, ?_⟩ <;> decide

set_option maxRecDepth 100000 in
/-- The cases of `TestStripQueryAndUUIDs`. -/
theorem TestStripQueryAndUUIDs :
    stripQueryAndUUIDs
      "http://interviewer:8080/v1/things/f0496797-0381-4b43-9821-313242a4d5f9?onlySome=1".toList
      = "http://interviewer:8080/v1/things/:id".toList ∧
    stripQueryAndUUIDs
      "http://interviewer:8080/v1/things/eff72a73-2a2c-41eb-9a8c-ea7f337c84d2/stuff".toList
      = "http://interviewer:8080/v1/things/:id/stuff".toList ∧
    stripQueryAndUUIDs
      "http://interviewer:8080/v1/things/397f50a8-a618-4c1b-8e9e-8b85e9412b6a/stuff/B84959F0-02B8-4AE9-BD2F-5EFE5C243D61".toList
      = "http://interviewer:8080/v1/things/:id/stuff/:id".toList ∧
    stripQueryAndUUIDs
      "http://interviewer:8080/v1/things/F88F9FCD-13AE-4BBB-B6A4-A539EC7FB804/stuff/9bb4c0af-f6da-4867-a72b-1a48b9bf014c/attr".toList
      = "http://interviewer:8080/v1/things/:id/stuff/:id/attr".toList := by
  refine ⟨?_, ?_, ?_, ?_⟩ <;> decide

/-! ## C1: idempotence of the cardinality reduction -/

/-- C1, as amended: `stripQueryAndUUIDs` is idempotent on every input in whose
text before the first `?` no occurrence of the UUID pattern is directly followed
by 35 characters of the shape 7-4-4-4-12 hexadecimal digits. -/
theorem stripQueryAndUUIDs_idempotent_of_clear (p : List Char)
    (h : UUIDsClear ((splitOn '?' p).headD [])) :
    stripQueryAndUUIDs (stripQueryAndUUIDs p) = stripQueryAndUUIDs p := by
  have hq : '?' ∉ replaceAllUUIDs ((splitOn '?' p).headD []) :=
    not_mem_replaceAllUUIDs (by decide) (sep_not_mem_head_splitOn '?' p)
  show replaceAllUUIDs ((splitOn '?' (replaceAllUUIDs ((splitOn '?' p).headD []))).headD [])
    = replaceAllUUIDs ((splitOn '?' p).headD [])
  rw [splitOn_of_not_mem hq]
  exact replaceAllUUIDs_of_no_match _ (no_match_replaceAllUUIDs _ _ (le_refl _) h)

set_option maxRecDepth 100000 in
theorem stripQueryAndUUIDs_idempotent_of_clear_witness :
    UUIDsClear ((splitOn '?'
      "/v1/things/f0496797-0381-4b43-9821-313242a4d5f9/stuff?onlySome=1".toList).headD []) ∧
    stripQueryAndUUIDs (stripQueryAndUUIDs
      "/v1/things/f0496797-0381-4b43-9821-313242a4d5f9/stuff?onlySome=1".toList) =
    stripQueryAndUUIDs
      "/v1/things/f0496797-0381-4b43-9821-313242a4d5f9/stuff?onlySome=1".toList :=
  ⟨by decide, stripQueryAndUUIDs_idempotent_of_clear _ (by decide)⟩

/-- C1, as stated, fails: a UUID directly followed by `0000000-0000-0000-0000-000000000000`
is reduced to `:id0000000-0000-0000-0000-000000000000`, whose `d` starts a UUID,
and reducing again gives `:i:id`. -/
theorem stripQueryAndUUIDs_not_idempotent :
    stripQueryAndUUIDs (stripQueryAndUUIDs
      "00000000-0000-0000-0000-0000000000000000000-0000-0000-0000-000000000000".toList) ≠
    stripQueryAndUUIDs
      "00000000-0000-0000-0000-0000000000000000000-0000-0000-0000-000000000000".toList := by
  decide

/-! ## C2: UUID segments become `:id`, the query is dropped -/

theorem not_mem_of_matchesAt {x : Char} (pat : List (Char → Bool))
    (hpat : ∀ p ∈ pat, p x = false) (l : List Char)
    (hm : matchesAt pat l = true) (hl : l.length ≤ pat.length) : x ∉ l := by
  induction pat generalizing l with
  | nil =>
    have : l = [] := List.length_eq_zero.1 (Nat.le_zero.1 hl)
    simp [this]
  | cons p ps ih =>
    cases l with
    | nil => simp
    | cons c cs =>
      simp only [matchesAt, Bool.and_eq_true] at hm
      simp only [List.mem_cons, not_or]
      refine ⟨fun e => ?_, ih (fun q hq => hpat q (List.mem_cons_of_mem _ hq)) cs hm.2
        (by simpa using hl)⟩
      have := hpat p (by simp)
      rw [e, hm.1] at this
      exact absurd this (by decide)

theorem not_mem_of_isUUID {x : Char} (hx : ∀ p ∈ uuidRegexp, p x = false)
    {s : List Char} (hs : isUUID s = true) : x ∉ s := by
  simp only [isUUID, Bool.and_eq_true, beq_iff_eq] at hs
  exact not_mem_of_matchesAt _ hx s hs.2 (by rw [hs.1]; decide)

/-- A match of the UUID pattern starts with eight hexadecimal digits and `-`. -/
theorem uuid_match_starts_with_hex_dash (l : List Char) (h : matchesAt uuidRegexp l = true) :
    ∃ hd tl, l = hd ++ '-' :: tl ∧ ∀ c ∈ hd, isHex c = true := by
  match l, h with
  | c0 :: c1 :: c2 :: c3 :: c4 :: c5 :: c6 :: c7 :: c8 :: tl, h =>
    simp only [uuidRegexp, List.replicate, List.cons_append, List.nil_append, matchesAt,
      Bool.and_eq_true, isDash, decide_eq_true_eq] at h
    refine ⟨[c0, c1, c2, c3, c4, c5, c6, c7], tl, ?_, ?_⟩
    · simp [h.2.2.2.2.2.2.2.2.1]
    · simp [h.1, h.2.1, h.2.2.1, h.2.2.2.1, h.2.2.2.2.1, h.2.2.2.2.2.1, h.2.2.2.2.2.2.1,
        h.2.2.2.2.2.2.2.1]
  | [], h | [_], h | [_, _], h | [_, _, _], h | [_, _, _, _], h | [_, _, _, _, _], h
  | [_, _, _, _, _, _], h | [_, _, _, _, _, _, _], h | [_, _, _, _, _, _, _, _], h =>
    simp [uuidRegexp, matchesAt] at h

/-- Inside a segment without `-` that ends the text or is followed by `/` no
match of the UUID pattern starts. -/
theorem no_match_in_plain_segment (s rest : List Char) (hs : '-' ∉ s)
    (hrest : rest = [] ∨ ∃ r, rest = '/' :: r) :
    matchesAt uuidRegexp (s ++ rest) = false := by
  cases h : matchesAt uuidRegexp (s ++ rest) with
  | false => rfl
  | true =>
    exfalso
    obtain ⟨hd, tl, heq, hhex⟩ := uuid_match_starts_with_hex_dash _ h
    rcases List.append_eq_append_iff.1 heq with ⟨a, ha, hb⟩ | ⟨a, ha, hb⟩
    · rcases hrest with hr | ⟨r, hr⟩
      · rw [hr] at hb; simp at hb
      · rw [hr] at hb
        cases a with
        | nil => simp at hb
        | cons x xs =>
          simp only [List.cons_append, List.cons.injEq] at hb
          have := hhex '/' (by rw [ha, ← hb.1]; simp)
          exact absurd this (by decide)
    · cases a with
      | nil =>
        rcases hrest with hr | ⟨r, hr⟩
        · rw [hr] at hb; simp at hb
        · rw [hr] at hb; simp at hb
      | cons x xs =>
        simp only [List.cons_append, List.cons.injEq] at hb
        exact hs (by rw [ha, ← hb.1]; simp)

theorem replaceAllUUIDs_plain_segment (s rest : List Char) (hs : '-' ∉ s)
    (hrest : rest = [] ∨ ∃ r, rest = '/' :: r) :
    replaceAllUUIDs (s ++ rest) = s ++ replaceAllUUIDs rest := by
  induction s with
  | nil => rfl
  | cons c cs ih =>
    have hcs : '-' ∉ cs := fun e => hs (List.mem_cons_of_mem _ e)
    have h0 := no_match_in_plain_segment (c :: cs) rest hs hrest
    rw [List.cons_append] at h0 ⊢
    rw [replaceAllUUIDs_cons, h0, ih hcs]
    rfl

theorem replaceAllUUIDs_uuid_segment (s rest : List Char) (hs : isUUID s = true) :
    replaceAllUUIDs (s ++ rest) = idPlaceholder ++ replaceAllUUIDs rest := by
  simp only [isUUID, Bool.and_eq_true, beq_iff_eq] at hs
  cases s with
  | nil => simp at hs
  | cons c cs =>
    have hm := matchesAt_append _ _ rest hs.2
    rw [List.cons_append] at hm
    rw [List.cons_append, replaceAllUUIDs_cons, hm, ← List.cons_append,
      List.drop_left' hs.1]
    rfl

theorem replaceAllUUIDs_segment (s rest : List Char)
    (hs : isUUID s = true ∨ ('-' ∉ s ∧ '?' ∉ s))
    (hrest : rest = [] ∨ ∃ r, rest = '/' :: r) :
    replaceAllUUIDs (s ++ rest) = labelSegment s ++ replaceAllUUIDs rest := by
  unfold labelSegment
  by_cases hu : isUUID s = true
  · rw [if_pos hu]; exact replaceAllUUIDs_uuid_segment s rest hu
  · rw [if_neg hu]
    exact replaceAllUUIDs_plain_segment s rest (hs.resolve_left hu).1 hrest

theorem replaceAllUUIDs_join (segs : List (List Char))
    (h : ∀ s ∈ segs, isUUID s = true ∨ ('-' ∉ s ∧ '?' ∉ s)) :
    replaceAllUUIDs (join '/' segs) = join '/' (segs.map labelSegment) := by
  induction segs with
  | nil => rfl
  | cons s ss ih =>
    cases ss with
    | nil =>
      have := replaceAllUUIDs_segment s [] (h s (by simp)) (Or.inl rfl)
      simpa [join, replaceAllUUIDs, replaceFrom] using this
    | cons t ts =>
      have h1 := replaceAllUUIDs_segment s ('/' :: join '/' (t :: ts)) (h s (by simp))
        (Or.inr ⟨_, rfl⟩)
      have h2 : replaceAllUUIDs ('/' :: join '/' (t :: ts)) =
          '/' :: replaceAllUUIDs (join '/' (t :: ts)) := by
        rw [replaceAllUUIDs_cons]
        have : matchesAt uuidRegexp ('/' :: join '/' (t :: ts)) = false := rfl
        rw [this]; rfl
      have h3 := ih fun x hx => h x (List.mem_cons_of_mem _ hx)
      simp only [join, List.map_cons] at h1 h3 ⊢
      rw [h1, h2, h3]

theorem not_mem_join {x sep : Char} (hx : x ≠ sep) (segs : List (List Char))
    (h : ∀ s ∈ segs, x ∉ s) : x ∉ join sep segs := by
  induction segs with
  | nil => simp [join]
  | cons s ss ih =>
    cases ss with
    | nil => simpa [join] using h s (by simp)
    | cons t ts =>
      simp only [join, List.mem_append, List.mem_cons, not_or]
      exact ⟨h s (by simp), hx, ih fun y hy => h y (List.mem_cons_of_mem _ hy)⟩

theorem stripQueryAndUUIDs_urlOf (segs : List (List Char)) (query : Option (List Char))
    (h : ∀ s ∈ segs, isUUID s = true ∨ ('-' ∉ s ∧ '?' ∉ s)) :
    stripQueryAndUUIDs (urlOf segs query) = join '/' (segs.map labelSegment) := by
  have hq : '?' ∉ join '/' segs := by
    refine not_mem_join (by decide) segs fun s hs => ?_
    rcases h s hs with hu | hp
    · exact not_mem_of_isUUID (by decide) hu
    · exact hp.2
  have hsplit : (splitOn '?' (urlOf segs query)).headD [] = join '/' segs := by
    cases query with
    | none => simp [urlOf, splitOn_of_not_mem hq]
    | some q => simp [urlOf, splitOn_append_cons, splitOn_of_not_mem hq]
  show replaceAllUUIDs ((splitOn '?' (urlOf segs query)).headD []) = _
  rw [hsplit]
  exact replaceAllUUIDs_join segs h

/-- C2: on a URL of `/`-joined segments, each a UUID in any letter case or free
of `-` and `?`, with or without a query, `stripQueryAndUUIDs` returns the
segments joined by `/` with every UUID segment replaced by `:id`, the others
unchanged and the query removed; so a URL whose segments differ from these only
in the letter case of the UUID segments gets the same output. -/
theorem stripQueryAndUUIDs_segments (segs : List (List Char)) (query : Option (List Char))
    (h : ∀ s ∈ segs, isUUID s = true ∨ ('-' ∉ s ∧ '?' ∉ s)) :
    stripQueryAndUUIDs (urlOf segs query) = join '/' (segs.map labelSegment) ∧
    ∀ segs' : List (List Char),
      List.Forall₂ (fun a b => a = b ∨ (isUUID a = true ∧ isUUID b = true ∧
        a.map Char.toLower = b.map Char.toLower)) segs segs' →
      stripQueryAndUUIDs (urlOf segs' query) = stripQueryAndUUIDs (urlOf segs query) := by
  refine ⟨stripQueryAndUUIDs_urlOf segs query h, fun segs' hrel => ?_⟩
  have h' : ∀ s ∈ segs', isUUID s = true ∨ ('-' ∉ s ∧ '?' ∉ s) := by
    clear query
    induction hrel with
    | nil => simp
    | cons hab _ ih =>
      intro s hs
      rcases List.mem_cons.1 hs with e | hs
      · subst e
        rcases hab with e | ⟨_, hb, _⟩
        · subst e; exact h _ (by simp)
        · exact Or.inl hb
      · exact ih (fun x hx => h x (List.mem_cons_of_mem _ hx)) s hs
  have hmap : segs'.map labelSegment = segs.map labelSegment := by
    clear h h' query
    induction hrel with
    | nil => rfl
    | cons hab _ ih =>
      rcases hab with e | ⟨ha, hb, _⟩
      · subst e; simp [ih]
      · simp [ih, labelSegment, ha, hb]
  rw [stripQueryAndUUIDs_urlOf segs' query h', stripQueryAndUUIDs_urlOf segs query h, hmap]

set_option maxRecDepth 100000 in
theorem stripQueryAndUUIDs_segments_witness :
    (∀ s ∈ ["".toList, "v1".toList, "F88F9FCD-13AE-4BBB-b6a4-A539EC7FB804".toList,
        "attr".toList], isUUID s = true ∨ ('-' ∉ s ∧ '?' ∉ s)) ∧
    stripQueryAndUUIDs "/v1/F88F9FCD-13AE-4BBB-b6a4-A539EC7FB804/attr?onlySome=1".toList =
      "/v1/:id/attr".toList ∧
    stripQueryAndUUIDs "/v1/f88f9fcd-13ae-4bbb-b6a4-a539ec7fb804/attr?onlySome=1".toList =
      stripQueryAndUUIDs "/v1/F88F9FCD-13AE-4BBB-b6a4-A539EC7FB804/attr?onlySome=1".toList :=
  ⟨by decide,
   (stripQueryAndUUIDs_segments
      ["".toList, "v1".toList, "F88F9FCD-13AE-4BBB-b6a4-A539EC7FB804".toList, "attr".toList]
      (some "onlySome=1".toList) (by decide)).1,
   (stripQueryAndUUIDs_segments
      ["".toList, "v1".toList, "F88F9FCD-13AE-4BBB-b6a4-A539EC7FB804".toList, "attr".toList]
      (some "onlySome=1".toList) (by decide)).2
      ["".toList, "v1".toList, "f88f9fcd-13ae-4bbb-b6a4-a539ec7fb804".toList, "attr".toList]
      (.cons (.inl rfl) (.cons (.inl rfl) (.cons (.inr ⟨by decide, by decide, by decide⟩)
        (.cons (.inl rfl) .nil))))⟩

/-! ## C3, C4: query redaction -/

theorem length_splitOn (sep : Char) (l : List Char) :
    (splitOn sep l).length = l.count sep + 1 := by
  induction l with
  | nil => rfl
  | cons c cs ih =>
    by_cases hc : c = sep
    · subst hc; simp [splitOn, ih]
    · have h2 : splitOn sep (c :: cs) = consHead c (splitOn sep cs) := by
        simp [splitOn, hc]
      have h3 : (consHead c (splitOn sep cs)).length = (splitOn sep cs).length := by
        cases h : splitOn sep cs with
        | nil => exact absurd h (splitOn_ne_nil sep cs)
        | cons x xs => rfl
      rw [h2, h3, ih, List.count_cons_of_ne (Ne.symm hc)]

theorem one_lt_length_splitOn_iff (sep : Char) (l : List Char) :
    (splitOn sep l).length > 1 ↔ sep ∈ l := by
  rw [length_splitOn, ← List.count_pos_iff]
  omega

theorem join_cons_of_ne_nil (sep : Char) (p : List Char) {ps : List (List Char)}
    (h : ps ≠ []) : join sep (p :: ps) = p ++ sep :: join sep ps := by
  cases ps with
  | nil => exact absurd rfl h
  | cons q qs => rfl

/-- Splitting what was joined gives back the parts, when none contains the
separator. -/
theorem splitOn_join (sep : Char) (parts : List (List Char)) (hne : parts ≠ [])
    (h : ∀ p ∈ parts, sep ∉ p) : splitOn sep (join sep parts) = parts := by
  induction parts with
  | nil => exact absurd rfl hne
  | cons p ps ih =>
    cases ps with
    | nil => simpa [join] using splitOn_of_not_mem (h p (by simp))
    | cons q qs =>
      rw [join_cons_of_ne_nil sep p (by simp), splitOn_append_cons,
        splitOn_of_not_mem (h p (by simp)),
        ih (by simp) fun x hx => h x (List.mem_cons_of_mem _ hx)]
      rfl

theorem stripParameter_key (key : List Char) (hk : '=' ∉ key) :
    stripParameter key = key ++ "=:value".toList := by
  simp [stripParameter, splitOn_of_not_mem hk]

theorem stripParameter_key_value (key value : List Char) (hk : '=' ∉ key)
    (hv : '=' ∉ value) :
    stripParameter (key ++ '=' :: value) =
      if ',' ∈ value then key ++ "=:values".toList else key ++ "=:value".toList := by
  have h : splitOn '=' (key ++ '=' :: value) = [key, value] := by
    rw [splitOn_append_cons, splitOn_of_not_mem hk, splitOn_of_not_mem hv]; rfl
  unfold stripParameter
  simp only [h, List.headD_cons, List.length_cons, List.length_nil, List.getD_cons_succ,
    List.getD_cons_zero, one_lt_length_splitOn_iff, true_and]
  by_cases hc : ',' ∈ value <;> simp [hc]

theorem stripParameter_renderParam (p : List Char × Option (List Char))
    (hk : '=' ∉ p.1) (hv : ∀ v, p.2 = some v → '=' ∉ v) :
    stripParameter (renderParam p) = redactedParam p := by
  obtain ⟨key, value⟩ := p
  cases value with
  | none => exact stripParameter_key key hk
  | some v => exact stripParameter_key_value key v hk (hv v rfl)

theorem not_mem_renderParam {x : Char} (hx : x ≠ '=') (p : List Char × Option (List Char))
    (hk : x ∉ p.1) (hv : ∀ v, p.2 = some v → x ∉ v) : x ∉ renderParam p := by
  obtain ⟨key, value⟩ := p
  cases value with
  | none => exact hk
  | some v =>
    simp only [renderParam, List.mem_append, List.mem_cons, not_or]
    exact ⟨hk, hx, hv v rfl⟩

theorem join_consHead (sep c : Char) (x : List Char) (xs : List (List Char)) :
    join sep ((c :: x) :: xs) = c :: join sep (x :: xs) := by
  cases xs <;> rfl

/-- Joining what was split gives back the text. -/
theorem join_splitOn (sep : Char) (l : List Char) : join sep (splitOn sep l) = l := by
  induction l with
  | nil => rfl
  | cons c cs ih =>
    by_cases hc : c = sep
    · have h : splitOn sep (c :: cs) = [] :: splitOn sep cs := by simp [splitOn, hc]
      rw [h, join_cons_of_ne_nil sep [] (splitOn_ne_nil sep cs), ih, hc]
      rfl
    · have h : splitOn sep (c :: cs) = consHead c (splitOn sep cs) := by simp [splitOn, hc]
      rw [h]
      cases hs : splitOn sep cs with
      | nil => exact absurd hs (splitOn_ne_nil sep cs)
      | cons x xs =>
        rw [hs] at ih
        show join sep ((c :: x) :: xs) = c :: cs
        rw [join_consHead, ih]

/-- The pieces of a split are made of characters of the text other than the
separator. -/
theorem mem_of_mem_splitOn (sep : Char) (l part : List Char) (hp : part ∈ splitOn sep l)
    (x : Char) (hx : x ∈ part) : x ∈ l ∧ x ≠ sep := by
  induction l generalizing part with
  | nil =>
    simp only [splitOn, List.mem_singleton] at hp
    subst hp
    simp at hx
  | cons c cs ih =>
    by_cases hc : c = sep
    · have h : splitOn sep (c :: cs) = [] :: splitOn sep cs := by simp [splitOn, hc]
      rw [h] at hp
      rcases List.mem_cons.1 hp with e | hp
      · subst e; simp at hx
      · exact ⟨List.mem_cons_of_mem _ (ih part hp hx).1, (ih part hp hx).2⟩
    · have h : splitOn sep (c :: cs) = consHead c (splitOn sep cs) := by simp [splitOn, hc]
      rw [h] at hp
      cases hs : splitOn sep cs with
      | nil => exact absurd hs (splitOn_ne_nil sep cs)
      | cons y ys =>
        rw [hs] at hp ih
        rcases List.mem_cons.1 hp with e | hp
        · subst e
          rcases List.mem_cons.1 hx with e | hx
          · subst e; exact ⟨by simp, hc⟩
          · exact ⟨List.mem_cons_of_mem _ (ih y (by simp) hx).1, (ih y (by simp) hx).2⟩
        · exact ⟨List.mem_cons_of_mem _ (ih part (List.mem_cons_of_mem _ hp) hx).1,
            (ih part (List.mem_cons_of_mem _ hp) hx).2⟩

/-- A part of a query with at most one `=` is a parameter written `key` or
`key=value`. -/
theorem part_is_rendered (part : List Char) (hq : '?' ∉ part) (ha : '&' ∉ part)
    (h1 : part.count '=' ≤ 1) :
    ∃ p : List Char × Option (List Char), renderParam p = part ∧
      separatorFree p.1 ∧ ∀ v, p.2 = some v → separatorFree v := by
  by_cases he : '=' ∈ part
  · obtain ⟨k, v, hkv⟩ := List.append_of_mem he
    subst hkv
    have hc : List.count '=' k = 0 ∧ List.count '=' v = 0 := by
      rw [List.count_append, List.count_cons_self] at h1
      omega
    have hk : '=' ∉ k := List.count_eq_zero.1 hc.1
    have hv : '=' ∉ v := List.count_eq_zero.1 hc.2
    simp only [List.mem_append, List.mem_cons, not_or] at hq ha
    refine ⟨(k, some v), rfl, ⟨hq.1, ha.1, hk⟩, fun w hw => ?_⟩
    simp only [Option.some.injEq] at hw
    subst hw
    exact ⟨hq.2.2, ha.2.2, hv⟩
  · exact ⟨(part, none), rfl, ⟨hq, ha, he⟩, fun v hv => by simp at hv⟩

theorem parts_are_rendered (parts : List (List Char))
    (h : ∀ part ∈ parts, '?' ∉ part ∧ '&' ∉ part ∧ part.count '=' ≤ 1) :
    ∃ params : List (List Char × Option (List Char)), params.map renderParam = parts ∧
      ∀ p ∈ params, separatorFree p.1 ∧ ∀ v, p.2 = some v → separatorFree v := by
  induction parts with
  | nil => exact ⟨[], rfl, by simp⟩
  | cons part rest ih =>
    obtain ⟨ps, hps, hclean⟩ := ih fun x hx => h x (List.mem_cons_of_mem _ hx)
    obtain ⟨hq, ha, h1⟩ := h part (by simp)
    obtain ⟨p, hp, hpc⟩ := part_is_rendered part hq ha h1
    refine ⟨p :: ps, by simp [hp, hps], fun x hx => ?_⟩
    rcases List.mem_cons.1 hx with e | hx
    · subst e; exact hpc
    · exact hclean x hx

/-- Every input with exactly one `?`, in whose query each `&`-separated part has
at most one `=`, is a path without `?`, then `?`, then parameters written `key`
or `key=value` and joined by `&`. -/
theorem one_query_url_is_rendered (url : List Char) (h1 : url.count '?' = 1)
    (hparts : ∀ path query, url = path ++ '?' :: query →
      ∀ part ∈ splitOn '&' query, part.count '=' ≤ 1) :
    ∃ (path : List Char) (params : List (List Char × Option (List Char))),
      url = path ++ '?' :: join '&' (params.map renderParam) ∧ '?' ∉ path ∧ params ≠ [] ∧
      ∀ p ∈ params, separatorFree p.1 ∧ ∀ v, p.2 = some v → separatorFree v := by
  have hmem : '?' ∈ url := List.count_pos_iff.1 (by omega)
  obtain ⟨path, query, hurl⟩ := List.append_of_mem hmem
  have hc : List.count '?' path = 0 ∧ List.count '?' query = 0 := by
    rw [hurl, List.count_append, List.count_cons_self] at h1
    omega
  have hp : '?' ∉ path := List.count_eq_zero.1 hc.1
  have hq : '?' ∉ query := List.count_eq_zero.1 hc.2
  obtain ⟨params, hparams, hclean⟩ := parts_are_rendered (splitOn '&' query) fun part hpart =>
    ⟨fun hx => hq (mem_of_mem_splitOn '&' query part hpart '?' hx).1,
     fun hx => (mem_of_mem_splitOn '&' query part hpart '&' hx).2 rfl,
     hparts path query hurl part hpart⟩
  refine ⟨path, params, ?_, hp, ?_, hclean⟩
  · rw [hparams, join_splitOn, hurl]
  · intro e
    rw [e] at hparams
    exact splitOn_ne_nil '&' query hparams.symm

/-- The code on an input with exactly one `?`. -/
theorem stripQueryParameters_one_query (path query : List Char) (hp : '?' ∉ path)
    (hq : '?' ∉ query) :
    stripQueryParameters (path ++ '?' :: query) =
      path ++ '?' :: join '&' ((splitOn '&' query).map stripParameter) := by
  have h : splitOn '?' (path ++ '?' :: query) = [path, query] := by
    rw [splitOn_append_cons, splitOn_of_not_mem hp, splitOn_of_not_mem hq]; rfl
  simp [stripQueryParameters, h]

/-- C3: an input without `?` (the empty one too) is returned unchanged; an input
with one `?`, whose query is made of `&`-joined parameters `key` or
`key=value`, is returned as the text before the `?`, then `?`, then the
parameters in their order joined by `&`, each as `key=:values` when it has a
value that contains `,` and as `key=:value` otherwise. -/
theorem stripQueryParameters_redacts :
    (∀ url : List Char, '?' ∉ url → stripQueryParameters url = url) ∧
    (∀ (path : List Char) (params : List (List Char × Option (List Char))),
      '?' ∉ path → params ≠ [] →
      (∀ p ∈ params, separatorFree p.1 ∧ ∀ v, p.2 = some v → separatorFree v) →
      stripQueryParameters (path ++ '?' :: join '&' (params.map renderParam)) =
        path ++ '?' :: join '&' (params.map redactedParam)) := by
  constructor
  · intro url h
    simp [stripQueryParameters, splitOn_of_not_mem h]
  · intro path params hp hne h
    have hamp : ∀ x ∈ params.map renderParam, '&' ∉ x := by
      intro x hx
      obtain ⟨p, hpm, rfl⟩ := List.mem_map.1 hx
      exact not_mem_renderParam (by decide) p (h p hpm).1.2.1
        fun v hv => ((h p hpm).2 v hv).2.1
    have hq : '?' ∉ join '&' (params.map renderParam) := by
      refine not_mem_join (by decide) _ fun x hx => ?_
      obtain ⟨p, hpm, rfl⟩ := List.mem_map.1 hx
      exact not_mem_renderParam (by decide) p (h p hpm).1.1
        fun v hv => ((h p hpm).2 v hv).1
    rw [stripQueryParameters_one_query path _ hp hq,
      splitOn_join '&' _ (by simpa using hne) hamp, List.map_map]
    have hmap : params.map (stripParameter ∘ renderParam) = params.map redactedParam :=
      List.map_congr_left fun p hpm =>
        stripParameter_renderParam p (h p hpm).1.2.2 fun v hv => ((h p hpm).2 v hv).2.2
    rw [hmap]

set_option maxRecDepth 100000 in
theorem stripQueryParameters_redacts_witness :
    stripQueryParameters "".toList = "".toList ∧
    stripQueryParameters "/v1/things?onlySome=1&other=text-val&list=one,two,three&flag".toList
      = "/v1/things?onlySome=:value&other=:value&list=:values&flag=:value".toList :=
  ⟨stripQueryParameters_redacts.1 [] (by decide),
   stripQueryParameters_redacts.2 "/v1/things".toList
     [("onlySome".toList, some "1".toList), ("other".toList, some "text-val".toList),
      ("list".toList, some "one,two,three".toList), ("flag".toList, none)]
     (by decide) (by decide) (by simp [separatorFree])⟩

theorem join_append (sep : Char) (a b : List (List Char)) (ha : a ≠ []) (hb : b ≠ []) :
    join sep (a ++ b) = join sep a ++ sep :: join sep b := by
  induction a with
  | nil => exact absurd rfl ha
  | cons p ps ih =>
    cases ps with
    | nil => simpa [join] using join_cons_of_ne_nil sep p hb
    | cons q qs =>
      rw [List.cons_append, join_cons_of_ne_nil sep p (by simp), ih (by simp),
        join_cons_of_ne_nil sep p (by simp), List.append_assoc]
      rfl

theorem stripQuery_append_cons (a b : List Char) :
    stripQuery (a ++ '&' :: b) = stripQuery a ++ '&' :: stripQuery b := by
  unfold stripQuery
  rw [splitOn_append_cons, List.map_append]
  exact join_append '&' _ _ (by simpa using splitOn_ne_nil '&' a)
    (by simpa using splitOn_ne_nil '&' b)

/-- Appending a text without the separator changes only the last piece of a
split. -/
theorem splitOn_append_of_not_mem (sep : Char) (k : List Char) :
    ∃ init last, ∀ x, sep ∉ x → splitOn sep (k ++ x) = init ++ [last ++ x] := by
  induction k with
  | nil => exact ⟨[], [], fun x hx => by simpa using splitOn_of_not_mem hx⟩
  | cons c cs ih =>
    obtain ⟨init, last, h⟩ := ih
    by_cases hc : c = sep
    · refine ⟨[] :: init, last, fun x hx => ?_⟩
      simp [splitOn, hc, h x hx]
    · cases init with
      | nil =>
        refine ⟨[], c :: last, fun x hx => ?_⟩
        simp [splitOn, hc, h x hx, consHead]
      | cons i is =>
        refine ⟨(c :: i) :: is, last, fun x hx => ?_⟩
        simp [splitOn, hc, h x hx, consHead]

/-- The loop body sees of a value, once the key is fixed, only whether it
contains `,`. -/
theorem stripParameter_value (last v w : List Char) (hv : '=' ∉ v) (hw : '=' ∉ w)
    (hvw : ',' ∈ v ↔ ',' ∈ w) :
    stripParameter (last ++ '=' :: v) = stripParameter (last ++ '=' :: w) := by
  unfold stripParameter
  rw [splitOn_append_cons, splitOn_append_cons, splitOn_of_not_mem hv, splitOn_of_not_mem hw]
  cases h : splitOn '=' last with
  | nil => exact absurd h (splitOn_ne_nil '=' last)
  | cons a as =>
    cases as with
    | nil => simp [one_lt_length_splitOn_iff, hvw]
    | cons b bs => simp

theorem stripQuery_key_value (k v w : List Char) (hv : separatorFree v)
    (hw : separatorFree w) (hvw : ',' ∈ v ↔ ',' ∈ w) :
    stripQuery (k ++ '=' :: v) = stripQuery (k ++ '=' :: w) := by
  obtain ⟨init, last, h⟩ := splitOn_append_of_not_mem '&' k
  have h1 := h ('=' :: v) (by simpa using hv.2.1)
  have h2 := h ('=' :: w) (by simpa using hw.2.1)
  unfold stripQuery
  rw [h1, h2, List.map_append, List.map_append, List.map_singleton, List.map_singleton,
    stripParameter_value last v w hv.2.2 hw.2.2 hvw]

theorem mem_join_cons {x sep : Char} (hx : x ≠ sep) (p : List Char)
    {ps : List (List Char)} (h : ps ≠ []) :
    x ∈ join sep (p :: ps) ↔ x ∈ p ∨ x ∈ join sep ps := by
  rw [join_cons_of_ne_nil sep p h]
  simp [hx]

/-- Two queries with the same keys, whose values agree on containing `,`, have
`?` in the same cases and the same redaction. -/
theorem keyValues_agree {vs vs' : List (List Char)}
    (h : List.Forall₂ (fun v w => separatorFree v ∧ separatorFree w ∧ (',' ∈ v ↔ ',' ∈ w))
      vs vs') (keys : List (List Char)) :
    (keyValues keys vs = [] ↔ keyValues keys vs' = []) ∧
    ('?' ∈ join '&' (keyValues keys vs) ↔ '?' ∈ join '&' (keyValues keys vs')) ∧
    stripQuery (join '&' (keyValues keys vs)) = stripQuery (join '&' (keyValues keys vs')) := by
  induction h generalizing keys with
  | nil => simp [keyValues]
  | @cons v w vs vs' hvw _ ih =>
    cases keys with
    | nil => simp [keyValues]
    | cons k ks =>
      obtain ⟨hnil, hmem, hq⟩ := ih ks
      have e1 : keyValues (k :: ks) (v :: vs) = (k ++ '=' :: v) :: keyValues ks vs := rfl
      have e2 : keyValues (k :: ks) (w :: vs') = (k ++ '=' :: w) :: keyValues ks vs' := rfl
      have hk : '?' ∈ k ++ '=' :: v ↔ '?' ∈ k ++ '=' :: w := by
        have a := hvw.1.1
        have b := hvw.2.1.1
        simp [a, b]
      rw [e1, e2]
      refine ⟨by simp, ?_⟩
      by_cases hn : keyValues ks vs = []
      · have hn' := hnil.1 hn
        rw [hn, hn']
        exact ⟨by simpa [join] using hk,
          by simpa [join] using stripQuery_key_value k v w hvw.1 hvw.2.1 hvw.2.2⟩
      · have hn' : keyValues ks vs' ≠ [] := fun e => hn (hnil.2 e)
        refine ⟨?_, ?_⟩
        · rw [mem_join_cons (by decide) _ hn, mem_join_cons (by decide) _ hn', hk, hmem]
        · rw [join_cons_of_ne_nil _ _ hn, join_cons_of_ne_nil _ _ hn',
            stripQuery_append_cons, stripQuery_append_cons, hq,
            stripQuery_key_value k v w hvw.1 hvw.2.1 hvw.2.2]

/-- The code on an input that has a `?`, split at one of them: with no further
`?` the query is redacted, with a further one only the text before the first
`?` is returned. -/
theorem stripQueryParameters_append_cons (path query : List Char) :
    stripQueryParameters (path ++ '?' :: query) =
      if '?' ∈ path ∨ '?' ∈ query then (splitOn '?' path).headD []
      else path ++ '?' :: stripQuery query := by
  by_cases h : '?' ∈ path ∨ '?' ∈ query
  · rw [if_pos h]
    have hlen : (splitOn '?' (path ++ '?' :: query)).length ≠ 2 := by
      rw [length_splitOn, List.count_append, List.count_cons_self]
      have : 0 < path.count '?' ∨ 0 < query.count '?' := by
        simpa [List.count_pos_iff] using h
      omega
    have hhead : (splitOn '?' (path ++ '?' :: query)).headD [] =
        (splitOn '?' path).headD [] := by
      rw [splitOn_append_cons]
      cases hs : splitOn '?' path with
      | nil => exact absurd hs (splitOn_ne_nil '?' path)
      | cons a as => rfl
    simp only [stripQueryParameters, hlen, ne_eq, not_false_eq_true, if_true, hhead]
  · rw [if_neg h]
    simp only [not_or] at h
    exact stripQueryParameters_one_query path query h.1 h.2

/-- C4: for every path and every list of keys, two lists of values of the same
length, free of `?`, `&` and `=`, that agree position by position on containing
`,`, give the same output of `stripQueryParameters` on
`path?k1=v1&...&kn=vn`: the values do not reach the output. -/
theorem stripQueryParameters_hides_values (path : List Char)
    (keys values values' : List (List Char))
    (h : List.Forall₂
      (fun v w => separatorFree v ∧ separatorFree w ∧ (',' ∈ v ↔ ',' ∈ w)) values values') :
    stripQueryParameters (path ++ '?' :: join '&' (keyValues keys values)) =
    stripQueryParameters (path ++ '?' :: join '&' (keyValues keys values')) := by
  obtain ⟨_, hmem, hq⟩ := keyValues_agree h keys
  rw [stripQueryParameters_append_cons, stripQueryParameters_append_cons]
  simp only [hmem, hq]

set_option maxRecDepth 100000 in
theorem stripQueryParameters_hides_values_witness :
    stripQueryParameters "/v1/things?apiKey=secret-key&list=one,two,three".toList =
    stripQueryParameters "/v1/things?apiKey=other&list=,".toList :=
  stripQueryParameters_hides_values "/v1/things".toList
    ["apiKey".toList, "list".toList]
    ["secret-key".toList, "one,two,three".toList] ["other".toList, ",".toList]
    (.cons (by decide) (.cons (by decide) .nil))

/-! ## C5, C6: downstream failures become bad-gateway errors -/

theorem append_ne_empty (a b : String) (h : a ≠ "") : a ++ b ≠ "" := by
  intro e
  apply h
  have := congrArg String.data e
  simp only [String.data_append, List.append_eq_nil] at this
  exact String.ext this.1

theorem NewError_of_ne_empty (newID message : String) (status : Int) (h : message ≠ "") :
    NewError newID message status = ⟨newID, message, status⟩ := by
  simp [NewError, h]

/-- C5: whatever the context, the response (absent, or present with any status
and body) and the transport error, `wrapError` gives an `Error` with status
code 502; the status of the response is not passed on. -/
theorem wrapError_status_bad_gateway {β : Type} (w : World β) (c : client) (ctx : Context)
    (res : Option Response) (err : Option GoError) :
    (c.wrapError w ctx res err).StatusCode = 502 := by
  cases res with
  | none => rfl
  | some r =>
    simp only [client.wrapError]
    split <;> rfl

/-- C6, as amended: the `ID` of the error of `wrapError` is the id minted by
`id.New()` for this error, and the request id of the context is carried by the
message, as `requestId=[...]`. -/
theorem wrapError_id_fresh_message_has_request_id {β : Type} (w : World β) (c : client)
    (ctx : Context) (res : Option Response) (err : Option GoError) :
    (c.wrapError w ctx res err).ID = w.newID ∧
    ∃ pre post, (c.wrapError w ctx res err).Message =
      pre ++ ("requestId=[" ++ ctx.ID ++ "]") ++ post := by
  cases res with
  | none =>
    refine ⟨rfl, "Downstream request failed with no response. ",
      " err=[" ++ fmtError err ++ "]", ?_⟩
    simp only [client.wrapError, BadGateway]
    rw [NewError_of_ne_empty]
    · apply String.ext; simp
    · exact append_ne_empty _ _ (append_ne_empty _ _ (append_ne_empty _ _
        (append_ne_empty _ _ (by decide))))
  | some r =>
    refine ⟨by simp only [client.wrapError]; split <;> rfl, "Downstream failed. ",
      " status=[" ++ itoa r.StatusCode ++ "] code=[" ++ itoa (w.decode r.Body).1.Code ++
        "] message=[" ++ (w.decode r.Body).1.Message ++ "]", ?_⟩
    simp only [client.wrapError, reduceCtorEq, if_false, BadGateway]
    rw [NewError_of_ne_empty]
    · apply String.ext; simp
    · exact append_ne_empty _ _ (append_ne_empty _ _ (append_ne_empty _ _
        (append_ne_empty _ _ (append_ne_empty _ _ (append_ne_empty _ _
        (append_ne_empty _ _ (append_ne_empty _ _ (by decide))))))))

/-- C6, as stated, fails: a call made with the request id `req-1` that gets no
response returns an error whose `ID` is the freshly minted id, not `req-1`. -/
theorem wrapError_id_ne_request_id :
    (exampleClient.wrapError
      (exampleWorld (.ok "null") (.failed none (.other "timeout")))
      exampleContext none (some (.other "timeout"))).ID ≠ exampleContext.ID := by
  decide

/-! ## C7, C8: one sample per call that was sent, and what the call returns -/

/-- C7: a call whose request is built appends exactly one sample to each of the
two instruments, labelled with `stripQueryAndUUIDs (baseURL + path)`, the method
and the status, which is the status of the response in decimal when a response
came back and `503` when none did; a call whose request cannot be built
(serialization or construction fails) leaves both instruments as they were. -/
theorem Request_records_one_sample {β : Type} (w : World β) (c : client) (m : Metrics)
    (ctx : Context) (path : List Char) (method : String) (body : Option β) :
    (∀ req, c.createRequest w ctx path method body = .ok req →
      ∃ status,
        (match (w.send req).res with
          | some r => status = itoa r.StatusCode
          | none => status = "503") ∧
        (c.Request w m ctx path method body).2.rpcsTotal =
          m.rpcsTotal ++ [⟨stripQueryAndUUIDs (c.baseURL ++ path), method, status⟩] ∧
        (c.Request w m ctx path method body).2.rpcLatency =
          m.rpcLatency ++
            [(⟨stripQueryAndUUIDs (c.baseURL ++ path), method, status⟩, w.latency)]) ∧
    (∀ err, c.createRequest w ctx path method body = .error err →
      (c.Request w m ctx path method body).2 = m) := by
  constructor
  · intro req hreq
    simp only [client.Request, hreq]
    cases hs : w.send req with
    | failed res err =>
      cases res with
      | none => exact ⟨"503", rfl, rfl, rfl⟩
      | some r => exact ⟨itoa r.StatusCode, rfl, rfl, rfl⟩
    | ok res =>
      refine ⟨itoa res.StatusCode, rfl, ?_⟩
      by_cases h : res.StatusCode ≥ 300
      · simp only [h, if_true]; exact ⟨rfl, rfl⟩
      · simp only [h, if_false]; exact ⟨rfl, rfl⟩
  · intro err herr
    simp only [client.Request, herr]

set_option maxRecDepth 100000 in
theorem Request_records_one_sample_witness :
    (∃ status, status = "404" ∧
      (exampleClient.Request (exampleWorld (.ok "null") (.ok ⟨404, "not found"⟩)) noSamples
        exampleContext "/v1/things/F88F9FCD-13AE-4BBB-B6A4-A539EC7FB804?a=1".toList "GET"
        none).2.rpcsTotal =
          [] ++ [⟨"http://stocks/v1/things/:id".toList, "GET", status⟩]) ∧
    (exampleClient.Request (exampleWorld (.error (.other "unsupported type"))
        (.ok ⟨200, ""⟩)) noSamples exampleContext "/v1/things".toList "POST" (some ())).2 =
      noSamples :=
  ⟨((Request_records_one_sample (exampleWorld (.ok "null") (.ok ⟨404, "not found"⟩))
      exampleClient noSamples exampleContext
      "/v1/things/F88F9FCD-13AE-4BBB-B6A4-A539EC7FB804?a=1".toList "GET" none).1 _ rfl).imp
      fun _ h => ⟨h.1, h.2.1⟩,
   (Request_records_one_sample (exampleWorld (.error (.other "unsupported type"))
      (.ok ⟨200, ""⟩)) exampleClient noSamples exampleContext "/v1/things".toList "POST"
      (some ())).2 _ rfl⟩

/-- C8: a call whose request is built fails, returning no response and an
error, exactly when the transport returned an error or a response with status
300 or more came back; otherwise it returns the response received and no
error. -/
theorem Request_fails_iff {β : Type} (w : World β) (c : client) (m : Metrics)
    (ctx : Context) (path : List Char) (method : String) (body : Option β)
    (req : HttpRequest) (hreq : c.createRequest w ctx path method body = .ok req) :
    (((c.Request w m ctx path method body).1.1 = none ∧
        (c.Request w m ctx path method body).1.2 ≠ none) ↔
      ((w.send req).err ≠ none ∨
        ∃ r, (w.send req).res = some r ∧ r.StatusCode ≥ 300)) ∧
    (¬ ((w.send req).err ≠ none ∨ ∃ r, (w.send req).res = some r ∧ r.StatusCode ≥ 300) →
      ∃ r, (w.send req).res = some r ∧
        (c.Request w m ctx path method body).1 = (some r, none)) := by
  simp only [client.Request, hreq]
  cases hs : w.send req with
  | failed res err => simp [DoResult.err]
  | ok res =>
    by_cases h : res.StatusCode ≥ 300
    · simp [h, DoResult.err, DoResult.res]
    · simp [h, DoResult.err, DoResult.res]

theorem Request_fails_iff_witness :
    (exampleClient.Request (exampleWorld (.ok "null") (.ok ⟨204, ""⟩)) noSamples
      exampleContext "/v1/things".toList "DELETE" none).1 = (some ⟨204, ""⟩, none) :=
  (((Request_fails_iff (exampleWorld (.ok "null") (.ok ⟨204, ""⟩)) exampleClient noSamples
      exampleContext "/v1/things".toList "DELETE" none _ rfl).2 (by decide)).elim
    fun _ h => by rw [h.2]; exact congrArg (fun x => (x, none)) h.1.symm)

/-! ## C9, C10: the constructors of the taxonomy and the error response -/

/-- C9: the six constructors give the status codes 400, 401, 403, 404, 500 and
502, and as message the one passed, or the reason phrase of the status when the
message passed is empty. -/
theorem constructors_status_and_message (newID m : String) :
    ((BadRequest newID m).StatusCode = 400 ∧
      (BadRequest newID m).Message = if m = "" then "Bad Request" else m) ∧
    ((Unauthorized newID m).StatusCode = 401 ∧
      (Unauthorized newID m).Message = if m = "" then "Unauthorized" else m) ∧
    ((Forbidden newID m).StatusCode = 403 ∧
      (Forbidden newID m).Message = if m = "" then "Forbidden" else m) ∧
    ((NotFound newID m).StatusCode = 404 ∧
      (NotFound newID m).Message = if m = "" then "Not Found" else m) ∧
    ((InternalServerError newID m).StatusCode = 500 ∧
      (InternalServerError newID m).Message =
        if m = "" then "Internal Server Error" else m) ∧
    ((BadGateway newID m).StatusCode = 502 ∧
      (BadGateway newID m).Message = if m = "" then "Bad Gateway" else m) :=
  ⟨⟨rfl, rfl⟩, ⟨rfl, rfl⟩, ⟨rfl, rfl⟩, ⟨rfl, rfl⟩, ⟨rfl, rfl⟩, ⟨rfl, rfl⟩⟩

/-- C10: the error response has the path and the request id of the request; for
a taxonomy `*Error` its id, message and status code are those of the error; for
any other error the status code is 500 and the message is the text of the error,
or the reason phrase of 500 when that text is empty. -/
theorem NewErrorResponse_fields (newID : String) (c : GinContext) (err : GoError) :
    (NewErrorResponse newID c err).Path = c.requestPath ∧
    (NewErrorResponse newID c err).RequestID = GetRequestID c ∧
    (∀ e, err = .taxonomy e →
      (NewErrorResponse newID c err).ErrorID = e.ID ∧
      (NewErrorResponse newID c err).Message = e.Message ∧
      (NewErrorResponse newID c err).StatusCode = e.StatusCode) ∧
    (∀ description, err = .other description →
      (NewErrorResponse newID c err).StatusCode = 500 ∧
      (NewErrorResponse newID c err).Message =
        if description = "" then "Internal Server Error" else description) := by
  refine ⟨rfl, rfl, ?_, ?_⟩
  · rintro e rfl
    exact ⟨rfl, rfl, rfl⟩
  · rintro d rfl
    exact ⟨rfl, rfl⟩

theorem NewErrorResponse_fields_witness :
    (NewErrorResponse "f0496797-0381-4b43-9821-313242a4d5f9"
      ⟨"GET", "/health", [], "/health", [(RequestIDHeader, .str "req-1")], [], 200, []⟩
      (.other "connection refused")).StatusCode = 500 ∧
    (NewErrorResponse "f0496797-0381-4b43-9821-313242a4d5f9"
      ⟨"GET", "/health", [], "/health", [(RequestIDHeader, .str "req-1")], [], 200, []⟩
      (.other "connection refused")).Message = "connection refused" ∧
    (NewErrorResponse "f0496797-0381-4b43-9821-313242a4d5f9"
      ⟨"GET", "/health", [], "/health", [(RequestIDHeader, .str "req-1")], [], 200, []⟩
      (.other "connection refused")).RequestID = "req-1" :=
  ⟨((NewErrorResponse_fields _ _ _).2.2.2 _ rfl).1,
   ((NewErrorResponse_fields _ _ _).2.2.2 _ rfl).2,
   (NewErrorResponse_fields _ _ _).2.1⟩

/-! ## C13: the headers of an outbound request -/

/-- The request that `createRequest` builds, when it builds one. -/
theorem createRequest_ok {β : Type} (w : World β) (c : client) (ctx : Context)
    (path : List Char) (method : String) (body : Option β) (req : HttpRequest)
    (h : c.createRequest w ctx path method body = .ok req) :
    req.header =
      headerSet (headerSet (headerSet (headerSet (headerSet
        (if ctx.AuthToken ≠ "" then headerSet [] "Authorization" ("Bearer " ++ ctx.AuthToken)
          else [])
        "X-ClientID" ctx.ClientID) RequestIDHeader ctx.ID) AcceptLanguage ctx.Language)
        "Accept" "application/json") "Content-Type" "application/json" := by
  unfold client.createRequest at h
  cases hb : createBody w body with
  | error e => simp [hb] at h
  | ok bodyReader =>
    cases hn : w.newRequest method (c.baseURL ++ path) with
    | some e => simp [hb, hn] at h
    | none =>
      simp only [hb, hn, Except.ok.injEq] at h
      rw [← h]

/-- C13: a request that `createRequest` builds has the headers `X-ClientID`,
`X-Request-ID` and `Accept-Language` with the client id, id and language of the
context, `Accept` and `Content-Type` with `application/json`, and an
`Authorization` header exactly when the token of the context is not empty, then
with `Bearer` and the token. -/
theorem createRequest_headers {β : Type} (w : World β) (c : client) (ctx : Context)
    (path : List Char) (method : String) (body : Option β) (req : HttpRequest)
    (h : c.createRequest w ctx path method body = .ok req) :
    headerGet req.header "X-ClientID" = some ctx.ClientID ∧
    headerGet req.header "X-Request-ID" = some ctx.ID ∧
    headerGet req.header "Accept-Language" = some ctx.Language ∧
    headerGet req.header "Accept" = some "application/json" ∧
    headerGet req.header "Content-Type" = some "application/json" ∧
    headerGet req.header "Authorization" =
      (if ctx.AuthToken = "" then none else some ("Bearer " ++ ctx.AuthToken)) := by
  rw [createRequest_ok w c ctx path method body req h]
  by_cases ht : ctx.AuthToken = ""
  · simp [ht, headerSet, headerGet, RequestIDHeader, AcceptLanguage, List.lookup]
  · simp [ht, headerSet, headerGet, RequestIDHeader, AcceptLanguage, List.lookup]

theorem createRequest_headers_witness :
    headerGet
      (headerSet (headerSet (headerSet (headerSet (headerSet
        (headerSet [] "Authorization" "Bearer token")
        "X-ClientID" "client-1") "X-Request-ID" "req-1") "Accept-Language" "sv")
        "Accept" "application/json") "Content-Type" "application/json")
      "Authorization" = some "Bearer token" :=
  (createRequest_headers (exampleWorld (.ok "null") (.ok ⟨200, ""⟩)) exampleClient
    exampleContext "/v1/things".toList "GET" none _ rfl).2.2.2.2.2

/-! ## C14, C15: query redaction twice, and more than one `?` -/

theorem stripQueryParameters_of_not_mem (url : List Char) (h : '?' ∉ url) :
    stripQueryParameters url = url := by
  simp [stripQueryParameters, splitOn_of_not_mem h]

/-- An input that splits on `?` into two pieces has one `?`. -/
theorem eq_append_cons_of_length_splitOn (url : List Char)
    (h : (splitOn '?' url).length = 2) :
    ∃ path query, url = path ++ '?' :: query ∧ '?' ∉ path ∧ '?' ∉ query := by
  rw [length_splitOn] at h
  have hmem : '?' ∈ url := List.count_pos_iff.1 (by omega)
  obtain ⟨path, query, hurl⟩ := List.append_of_mem hmem
  have hc : List.count '?' path = 0 ∧ List.count '?' query = 0 := by
    rw [hurl, List.count_append, List.count_cons_self] at h
    omega
  exact ⟨path, query, hurl, List.count_eq_zero.1 hc.1, List.count_eq_zero.1 hc.2⟩

theorem head_mem_splitOn (sep : Char) (l : List Char) :
    (splitOn sep l).headD [] ∈ splitOn sep l := by
  cases h : splitOn sep l with
  | nil => exact absurd h (splitOn_ne_nil sep l)
  | cons x xs => simp

/-- The loop body, with its test named. -/
theorem stripParameter_eq (part : List Char) :
    stripParameter part =
      (splitOn '=' part).headD [] ++
        (if listValued part then "=:values".toList else "=:value".toList) := by
  unfold stripParameter listValued
  simp only [one_lt_length_splitOn_iff]
  split <;> rfl

theorem not_mem_stripParameter {x : Char} (hx : x ∉ "=:values".toList) (part : List Char)
    (h : x ∉ part) : x ∉ stripParameter part := by
  rw [stripParameter_eq]
  intro hm
  rcases List.mem_append.1 hm with hm | hm
  · exact h (mem_of_mem_splitOn '=' part _ (head_mem_splitOn '=' part) x hm).1
  · split at hm
    · exact hx hm
    · exact hx (by
        have : ∀ y ∈ "=:value".toList, y ∈ "=:values".toList := by decide
        exact this x hm)

/-- The loop body on its own output: the value is now `:value` or `:values`,
without `,`, and is replaced by `:value`. -/
theorem stripParameter_stripParameter (part : List Char) :
    stripParameter (stripParameter part) =
      (splitOn '=' part).headD [] ++ "=:value".toList := by
  have hk : '=' ∉ (splitOn '=' part).headD [] := sep_not_mem_head_splitOn '=' part
  rw [stripParameter_eq part]
  split
  · exact (stripParameter_key_value _ ":values".toList hk (by decide)).trans
      (if_neg (by decide))
  · exact (stripParameter_key_value _ ":value".toList hk (by decide)).trans
      (if_neg (by decide))

theorem stripParameter_fixed_iff (part : List Char) :
    stripParameter (stripParameter part) = stripParameter part ↔ ¬ listValued part := by
  rw [stripParameter_stripParameter, stripParameter_eq]
  by_cases h : listValued part
  · simp only [h, if_true, not_true_eq_false, iff_false]
    intro e
    exact absurd (List.append_cancel_left e) (by decide)
  · simp [h]

theorem splitOn_stripQuery (query : List Char) :
    splitOn '&' (stripQuery query) = (splitOn '&' query).map stripParameter := by
  unfold stripQuery
  refine splitOn_join '&' _ (by simpa using splitOn_ne_nil '&' query) fun p hp => ?_
  obtain ⟨part, hpart, rfl⟩ := List.mem_map.1 hp
  exact not_mem_stripParameter (by decide) part fun hm =>
    (mem_of_mem_splitOn '&' query part hpart '&' hm).2 rfl

theorem not_mem_stripQuery (query : List Char) (h : '?' ∉ query) :
    '?' ∉ stripQuery query := by
  unfold stripQuery
  refine not_mem_join (by decide) _ fun p hp => ?_
  obtain ⟨part, hpart, rfl⟩ := List.mem_map.1 hp
  exact not_mem_stripParameter (by decide) part fun hm =>
    h (mem_of_mem_splitOn '&' query part hpart '?' hm).1

theorem stripQuery_fixed_iff (query : List Char) :
    stripQuery (stripQuery query) = stripQuery query ↔
      ∀ part ∈ splitOn '&' query, ¬ listValued part := by
  constructor
  · intro h part hpart
    have h2 := congrArg (splitOn '&') h
    rw [splitOn_stripQuery, splitOn_stripQuery, List.map_map] at h2
    exact (stripParameter_fixed_iff part).1 (List.map_inj_left.1 h2 part hpart)
  · intro h
    have hmap : ((splitOn '&' query).map stripParameter).map stripParameter =
        (splitOn '&' query).map stripParameter := by
      rw [List.map_map]
      exact List.map_congr_left fun part hpart =>
        (stripParameter_fixed_iff part).2 (h part hpart)
    show join '&' ((splitOn '&' (stripQuery query)).map stripParameter) = stripQuery query
    rw [splitOn_stripQuery, hmap]
    rfl

/-- C14, as amended: redacting twice gives the same as redacting once exactly
for the inputs of which no parameter is redacted to `:values`; on the others
the second pass turns `:values` into `:value`. -/
theorem stripQueryParameters_idempotent_iff (u : List Char) :
    stripQueryParameters (stripQueryParameters u) = stripQueryParameters u ↔
      ¬ hasListValue u := by
  by_cases hlen : (splitOn '?' u).length = 2
  · obtain ⟨path, query, hu, hp, hq⟩ := eq_append_cons_of_length_splitOn u hlen
    have hsplit : splitOn '?' u = [path, query] := by
      rw [hu, splitOn_append_cons, splitOn_of_not_mem hp, splitOn_of_not_mem hq]; rfl
    have h1 : stripQueryParameters u = path ++ '?' :: stripQuery query := by
      rw [hu]; exact stripQueryParameters_one_query path query hp hq
    have h2 : stripQueryParameters (path ++ '?' :: stripQuery query) =
        path ++ '?' :: stripQuery (stripQuery query) :=
      stripQueryParameters_one_query path _ hp (not_mem_stripQuery query hq)
    rw [h1, h2]
    unfold hasListValue
    rw [hsplit]
    simp only [List.append_cancel_left_eq, List.cons.injEq, true_and, List.length_cons,
      List.length_nil, List.getD_cons_succ, List.getD_cons_zero, stripQuery_fixed_iff]
    simp
  · have h1 : stripQueryParameters u = (splitOn '?' u).headD [] := by
      simp [stripQueryParameters, hlen]
    rw [h1, stripQueryParameters_of_not_mem _ (sep_not_mem_head_splitOn '?' u)]
    simp [hasListValue, hlen]

/-- C14, as stated, fails: `a?x=1,2` is redacted to `a?x=:values`, and that to
`a?x=:value`. -/
theorem stripQueryParameters_not_idempotent :
    stripQueryParameters (stripQueryParameters "a?x=1,2".toList) ≠
      stripQueryParameters "a?x=1,2".toList := by
  decide

/-- C15, as amended: on an input with a `?`, of which `path` is the text before
the first `?` and `rest` the text after it, `stripQueryParameters` returns
`path`, `?` and the redaction of `rest` when `rest` has no further `?`, and
`path` alone when it has one. -/
theorem stripQueryParameters_at_first_query (path rest : List Char) (hp : '?' ∉ path) :
    stripQueryParameters (path ++ '?' :: rest) =
      if '?' ∈ rest then path else path ++ '?' :: stripQuery rest := by
  rw [stripQueryParameters_append_cons, splitOn_of_not_mem hp]
  simp [hp]

theorem stripQueryParameters_at_first_query_witness :
    stripQueryParameters "a?b=1?c=2".toList = "a".toList ∧
    stripQueryParameters "a?b=1,2&c".toList = "a?b=:values&c=:value".toList :=
  ⟨stripQueryParameters_at_first_query "a".toList "b=1?c=2".toList (by decide),
   stripQueryParameters_at_first_query "a".toList "b=1,2&c".toList (by decide)⟩

/-- C15, as stated, fails: on `a?b=1?c=2` the code returns `a`, not `a?` followed
by the redaction of `b=1?c=2`. -/
theorem stripQueryParameters_drops_query_after_second :
    stripQueryParameters "a?b=1?c=2".toList ≠
      "a".toList ++ '?' :: stripQuery "b=1?c=2".toList := by
  decide

/-! ## C11: the request id of an inbound request -/

theorem ne_empty_of_minted (id : String) (h : Minted id) : id ≠ "" := by
  intro e
  subst e
  exact absurd h (by decide)

theorem getString_set (c : GinContext) (key value : String) :
    (c.Set key value).GetString key = value := by
  simp [GinContext.Set, GinContext.GetString, List.lookup]

theorem headerGet_headerSet (h : List (String × String)) (key value : String) :
    headerGet (headerSet h key value) key = some value := by
  unfold headerGet headerSet
  induction h with
  | nil => simp [List.lookup]
  | cons kv rest ih =>
    obtain ⟨k, v⟩ := kv
    by_cases hk : k = key
    · rw [List.filter_cons_of_neg (by simp [hk])]
      exact ih
    · have hk2 : (key == k) = false := by
        simpa using fun e : key = k => hk e.symm
      rw [List.filter_cons_of_pos (by simpa using hk), List.cons_append, List.lookup_cons, hk2]
      exact ih

theorem canonical_RequestIDHeader : CanonicalMIMEHeaderKey RequestIDHeader = "X-Request-Id" := by
  decide

/-- The spellings of the request id header all have the one canonical name. -/
theorem canonical_request_id_spellings :
    CanonicalMIMEHeaderKey "x-request-id" = "X-Request-Id" ∧
    CanonicalMIMEHeaderKey "X-REQUEST-ID" = "X-Request-Id" ∧
    CanonicalMIMEHeaderKey "X-Request-Id" = "X-Request-Id" ∧
    CanonicalMIMEHeaderKey "X-Request-ID" = "X-Request-Id" := by
  decide

/-- C11: `RequestID` hands to the handlers after it a context whose response
header `X-Request-ID` and whose `GetRequestID` are the same text: the value of
the first header of the request named `X-Request-ID` in whatever letter case
(canonical name `X-Request-Id`) when there is one and its value is not empty,
and the minted id, which is not empty, otherwise. -/
theorem RequestID_echoes_or_mints (newID : String) (hnew : newID ≠ "") (s : Server) :
    ∃ c : GinContext,
      (∀ next : HandlerFunc, httputil.RequestID newID next s = next { s with c := c }) ∧
      headerGet c.responseHeader "X-Request-ID" = some (GetRequestID c) ∧
      GetRequestID c =
        (match s.c.requestHeader.find?
            (fun kv => CanonicalMIMEHeaderKey kv.1 == "X-Request-Id") with
          | some kv => if kv.2 = "" then newID else kv.2
          | none => newID) := by
  have hid : (if s.c.GetHeader RequestIDHeader = "" then newID
      else s.c.GetHeader RequestIDHeader) ≠ "" := by
    split
    · exact hnew
    · assumption
  refine ⟨(s.c.Set RequestIDHeader (if s.c.GetHeader RequestIDHeader = "" then newID
      else s.c.GetHeader RequestIDHeader)).Header RequestIDHeader
      (if s.c.GetHeader RequestIDHeader = "" then newID
      else s.c.GetHeader RequestIDHeader), fun next => rfl, ?_, ?_⟩
  · have hg : ∀ (c : GinContext) (v : String), v ≠ "" →
        GetRequestID (c.Header RequestIDHeader v) = GetRequestID c := by
      intro c v hv
      simp [GinContext.Header, hv, GetRequestID, GinContext.GetString]
    rw [hg _ _ hid]
    show headerGet _ RequestIDHeader = some (GinContext.GetString _ RequestIDHeader)
    rw [getString_set]
    simp only [GinContext.Header, hid, if_false]
    exact headerGet_headerSet _ _ _
  · have hg : ∀ (c : GinContext) (v : String), v ≠ "" →
        GetRequestID (c.Header RequestIDHeader v) = GetRequestID c := by
      intro c v hv
      simp [GinContext.Header, hv, GetRequestID, GinContext.GetString]
    rw [hg _ _ hid]
    show GinContext.GetString _ RequestIDHeader = _
    rw [getString_set]
    unfold GinContext.GetHeader
    rw [canonical_RequestIDHeader]
    cases s.c.requestHeader.find?
        (fun kv => CanonicalMIMEHeaderKey kv.1 == "X-Request-Id") with
    | none => simp
    | some kv => simp

theorem RequestID_echoes_or_mints_witness :
    (∃ c : GinContext,
      (∀ next : HandlerFunc,
        httputil.RequestID "f0496797-0381-4b43-9821-313242a4d5f9" next
          { exampleScrape with
            c := ⟨"GET", "/health", [("accept", "application/json"), ("x-request-id", "abc")], "/health",
              [], [], 200, []⟩ } =
          next { exampleScrape with c := c }) ∧
      headerGet c.responseHeader "X-Request-ID" = some (GetRequestID c) ∧
      GetRequestID c = "abc") ∧
    (∃ c : GinContext,
      (∀ next : HandlerFunc,
        httputil.RequestID "f0496797-0381-4b43-9821-313242a4d5f9" next exampleScrape =
          next { exampleScrape with c := c }) ∧
      headerGet c.responseHeader "X-Request-ID" = some (GetRequestID c) ∧
      GetRequestID c = "f0496797-0381-4b43-9821-313242a4d5f9") :=
  ⟨RequestID_echoes_or_mints "f0496797-0381-4b43-9821-313242a4d5f9" (by decide)
    { exampleScrape with
      c := ⟨"GET", "/health", [("accept", "application/json"), ("x-request-id", "abc")], "/health",
        [], [], 200, []⟩ },
   RequestID_echoes_or_mints "f0496797-0381-4b43-9821-313242a4d5f9" (by decide) exampleScrape⟩

/-! ## C12: what error finalization logs -/

/-- C12: when an error was raised while the request was handled, `HandleErrors`
appends to the error log exactly one entry, of level `error`, when the status
of the error response is 500 or more, and none when it is less; when no error
was raised it leaves everything as the handlers left it, so it logs nothing and
writes no response. -/
theorem HandleErrors_logs_server_errors (errorID : String) (next : HandlerFunc)
    (s : Server) :
    (∀ err, getFirstError (next s).c = some err →
      ((NewErrorResponse errorID (next s).c err).StatusCode ≥ 500 →
        (errorEntry (NewErrorResponse errorID (next s).c err)).level = "error" ∧
        (httputil.HandleErrors errorID next s).errLog =
          (next s).errLog ++ [errorEntry (NewErrorResponse errorID (next s).c err)]) ∧
      ((NewErrorResponse errorID (next s).c err).StatusCode < 500 →
        (httputil.HandleErrors errorID next s).errLog = (next s).errLog)) ∧
    (getFirstError (next s).c = none → httputil.HandleErrors errorID next s = next s) := by
  constructor
  · intro err herr
    constructor
    · intro h500
      refine ⟨rfl, ?_⟩
      simp only [httputil.HandleErrors, herr, sendError, logError]
      rw [if_neg (by omega)]
    · intro h500
      simp only [httputil.HandleErrors, herr, sendError, logError]
      rw [if_pos h500]
  · intro hnone
    simp only [httputil.HandleErrors, hnone]

theorem HandleErrors_logs_server_errors_witness :
    (httputil.HandleErrors "eff72a73-2a2c-41eb-9a8c-ea7f337c84d2"
      (fun s => { s with c := { s.c with errors := [.other "no connection"] } })
      exampleScrape).errLog =
      [] ++ [⟨"error", "no connection", [.int "status" 500,
        .string "errorId" "eff72a73-2a2c-41eb-9a8c-ea7f337c84d2", .string "requestId" ""]⟩] ∧
    (httputil.HandleErrors "eff72a73-2a2c-41eb-9a8c-ea7f337c84d2"
      (fun s => { s with c := { s.c with errors := [.taxonomy ⟨"e-1", "no such stock", 404⟩] } })
      exampleScrape).errLog = [] ∧
    httputil.HandleErrors "eff72a73-2a2c-41eb-9a8c-ea7f337c84d2" prometheusHandler
      exampleScrape = prometheusHandler exampleScrape :=
  ⟨(((HandleErrors_logs_server_errors "eff72a73-2a2c-41eb-9a8c-ea7f337c84d2"
      (fun s => { s with c := { s.c with errors := [.other "no connection"] } })
      exampleScrape).1 _ rfl).1 (by decide)).2,
   ((HandleErrors_logs_server_errors "eff72a73-2a2c-41eb-9a8c-ea7f337c84d2"
      (fun s => { s with c := { s.c with errors := [.taxonomy ⟨"e-1", "no such stock", 404⟩] } })
      exampleScrape).1 _ rfl).2 (by decide),
   (HandleErrors_logs_server_errors "eff72a73-2a2c-41eb-9a8c-ea7f337c84d2" prometheusHandler
      exampleScrape).2 rfl⟩

/-! ## C16, C17: the request context -/

/-- C16, as amended: the context of `New` has the id it was given, so its id is
not empty exactly when the argument is not; the context of `NewBackground` has
the minted id, which is not empty. -/
theorem New_id_nonempty_iff (parent : Scope) (id clientID language authToken newID : String) :
    ((New parent id clientID language authToken).ID ≠ "" ↔ id ≠ "") ∧
    (Minted newID → (NewBackground newID clientID language authToken).ID ≠ "") :=
  ⟨Iff.rfl, fun h => ne_empty_of_minted newID h⟩

theorem New_id_nonempty_iff_witness :
    (NewBackground "f0496797-0381-4b43-9821-313242a4d5f9" "teast-client-id" "sv"
      "auth-token").ID ≠ "" :=
  (New_id_nonempty_iff [] "req-1" "teast-client-id" "sv" "auth-token"
    "f0496797-0381-4b43-9821-313242a4d5f9").2 (by decide)

/-- C16, as stated, fails: `New` with an empty id returns a context whose id is
empty. -/
theorem New_accepts_empty_id :
    ¬ ((New [] "" "client-1" "sv" "token").ID ≠ "") := by
  decide

/-- C17: the context of `New` has the id, client id, language and token it was
given, and the value it keeps under `ContextIDKey` is a string, its id; the
same holds of the value kept by the context of `NewBackground`. -/
theorem New_fields_and_lookup (parent : Scope)
    (id clientID language authToken newID : String) :
    (New parent id clientID language authToken).ID = id ∧
    (New parent id clientID language authToken).ClientID = clientID ∧
    (New parent id clientID language authToken).Language = language ∧
    (New parent id clientID language authToken).AuthToken = authToken ∧
    (New parent id clientID language authToken).scope.Value .ContextIDKey =
      some (.str (New parent id clientID language authToken).ID) ∧
    (NewBackground newID clientID language authToken).scope.Value .ContextIDKey =
      some (.str (NewBackground newID clientID language authToken).ID) := by
  refine ⟨rfl, rfl, rfl, rfl, ?_, ?_⟩ <;>
    simp [NewBackground, New, WithValue, Scope.Value, List.lookup]

/-! ## C18: a scrape of `/metrics` -/

theorem HandleErrors_frame (errorID : String) (next : HandlerFunc) (s : Server) :
    (httputil.HandleErrors errorID next s).requestsTotal = (next s).requestsTotal ∧
    (httputil.HandleErrors errorID next s).requestsLatency = (next s).requestsLatency ∧
    (httputil.HandleErrors errorID next s).requestLog = (next s).requestLog := by
  cases h : getFirstError (next s).c with
  | none =>
    simp only [httputil.HandleErrors, h]
    exact ⟨trivial, trivial, trivial⟩
  | some err =>
    simp only [httputil.HandleErrors, h, sendError, logError]
    split <;> exact ⟨rfl, rfl, rfl⟩

theorem Header_request (c : GinContext) (key value : String) :
    (c.Header key value).requestMethod = c.requestMethod ∧
    (c.Header key value).requestPath = c.requestPath := by
  unfold GinContext.Header
  split <;> exact ⟨rfl, rfl⟩

/-- The middlewares `RequestID` and `Locale` hand on a context with the method
and path of the request unchanged. -/
theorem RequestID_Locale_next (newID : String) (next : HandlerFunc) (s : Server) :
    ∃ c : GinContext, c.requestMethod = s.c.requestMethod ∧
      c.requestPath = s.c.requestPath ∧
      httputil.RequestID newID (httputil.Locale next) s = next { s with c := c } := by
  refine ⟨_, ?_, ?_, rfl⟩
  · exact (Header_request _ _ _).1
  · exact (Header_request _ _ _).2

theorem Logger_HandleErrors_frame (latency : Int) (errorID : String) (handler : HandlerFunc)
    (hframe : ∀ t, (handler t).requestsTotal = t.requestsTotal ∧
      (handler t).requestsLatency = t.requestsLatency ∧
      (handler t).requestLog = t.requestLog) (t : Server) :
    (httputil.Logger latency (httputil.HandleErrors errorID handler) t).requestsTotal =
      t.requestsTotal ∧
    (httputil.Logger latency (httputil.HandleErrors errorID handler) t).requestsLatency =
      t.requestsLatency ∧
    ∃ outgoing : LogEntry,
      (httputil.Logger latency (httputil.HandleErrors errorID handler) t).requestLog =
        t.requestLog ++ [incomingEntry t.c, outgoing] := by
  have hf := HandleErrors_frame errorID handler
    { t with requestLog := t.requestLog ++ [incomingEntry t.c] }
  have hh := hframe { t with requestLog := t.requestLog ++ [incomingEntry t.c] }
  refine ⟨?_, ?_, outgoingEntry t.c.requestPath (GetRequestID t.c)
    (httputil.HandleErrors errorID handler
      { t with requestLog := t.requestLog ++ [incomingEntry t.c] }).c latency, ?_⟩
  · show (httputil.HandleErrors errorID handler _).requestsTotal = _
    rw [hf.1, hh.1]
  · show (httputil.HandleErrors errorID handler _).requestsLatency = _
    rw [hf.2.1, hh.2.1]
  · show (httputil.HandleErrors errorID handler _).requestLog ++ [_] = _
    rw [hf.2.2, hh.2.2]
    simp only [List.append_assoc, List.singleton_append]

/-- C18, as amended: on a request with the path `/metrics`, whose handler
records and logs nothing itself, the chain of the router appends no sample to
the inbound counter and histogram; `Logger`, which makes no exception of any
path, appends its two entries to the request log. -/
theorem routerChain_on_metrics_path (w : ServerWorld) (handler : HandlerFunc) (s : Server)
    (hpath : s.c.requestPath = "/metrics")
    (hframe : ∀ t, (handler t).requestsTotal = t.requestsTotal ∧
      (handler t).requestsLatency = t.requestsLatency ∧
      (handler t).requestLog = t.requestLog) :
    (routerChain w handler s).requestsTotal = s.requestsTotal ∧
    (routerChain w handler s).requestsLatency = s.requestsLatency ∧
    ∃ incoming outgoing : LogEntry,
      incoming.message = "Incomming request: " ++ s.c.requestMethod ++ " /metrics" ∧
      (routerChain w handler s).requestLog = s.requestLog ++ [incoming, outgoing] := by
  have hm : s.c.requestPath = metricsPath := hpath
  obtain ⟨c, hmethod, hcpath, hc⟩ := RequestID_Locale_next w.requestID
    (httputil.Logger w.loggerLatency (httputil.HandleErrors w.errorID handler)) s
  have hchain : routerChain w handler s =
      httputil.Logger w.loggerLatency (httputil.HandleErrors w.errorID handler)
        { s with c := c } := by
    rw [← hc]
    simp only [routerChain, httputil.Metrics, hm, if_true]
  obtain ⟨h1, h2, outgoing, h3⟩ := Logger_HandleErrors_frame w.loggerLatency w.errorID handler
    hframe { s with c := c }
  rw [hchain]
  refine ⟨h1, h2, incomingEntry c, outgoing, ?_, h3⟩
  simp only [incomingEntry, hmethod, hcpath, hpath]
  rw [String.append_assoc]
  rfl

theorem routerChain_on_metrics_path_witness :
    (routerChain exampleServerWorld prometheusHandler exampleScrape).requestsTotal = [] ∧
    (routerChain exampleServerWorld prometheusHandler exampleScrape).requestsLatency = [] :=
  ⟨(routerChain_on_metrics_path exampleServerWorld prometheusHandler exampleScrape rfl
      fun _ => ⟨rfl, rfl, rfl⟩).1,
   (routerChain_on_metrics_path exampleServerWorld prometheusHandler exampleScrape rfl
      fun _ => ⟨rfl, rfl, rfl⟩).2.1⟩

/-- C18, as stated, fails: serving `GET /metrics` leaves two entries of `Logger`
in the request log. -/
theorem routerChain_logs_metrics_path :
    (routerChain exampleServerWorld prometheusHandler exampleScrape).requestLog ≠
      exampleScrape.requestLog := by
  decide

/-! ## C19: a response whose body does not decode -/

/-- Whatever the decoder reports, the message of `wrapError` for a response
that came back is the one made from the decoded fields. -/
theorem wrapError_message_of_response {β : Type} (w : World β) (c : client) (ctx : Context)
    (r : Response) (err : Option GoError) :
    (c.wrapError w ctx (some r) err).Message =
      "Downstream failed. requestId=[" ++ ctx.ID ++ "] status=[" ++ itoa r.StatusCode ++
        "] code=[" ++ itoa (w.decode r.Body).1.Code ++ "] message=[" ++
        (w.decode r.Body).1.Message ++ "]" := by
  simp only [client.wrapError, reduceCtorEq, if_false, BadGateway]
  rw [NewError_of_ne_empty]
  exact append_ne_empty _ _ (append_ne_empty _ _ (append_ne_empty _ _
    (append_ne_empty _ _ (append_ne_empty _ _ (append_ne_empty _ _
    (append_ne_empty _ _ (append_ne_empty _ _ (by decide))))))))

/-- C19 on the code: for a response with status 500 whose body `not json` does
not decode, `wrapError` gives the message of a decoded body, with the code 0
and an empty remote message, not the message that notes the parse failure. -/
theorem wrapError_undecodable_body :
    (exampleWorld (.ok "null") (.ok ⟨500, "not json"⟩)).decode "not json" =
      (⟨0, ""⟩, some (.other "invalid character")) ∧
    (exampleClient.wrapError (exampleWorld (.ok "null") (.ok ⟨500, "not json"⟩))
      exampleContext (some ⟨500, "not json"⟩) none).Message =
      "Downstream failed. requestId=[req-1] status=[500] code=[0] message=[]" ∧
    (exampleClient.wrapError (exampleWorld (.ok "null") (.ok ⟨500, "not json"⟩))
      exampleContext (some ⟨500, "not json"⟩) none).Message ≠
      "Downstream request failed could not parse error. requestId=[req-1] code=[500] err=[%!s(<nil>)]" := by
  refine ⟨rfl, ?_, ?_⟩ <;> decide

end Mimir
